import Mathlib

/-!
Verification of the `sc-extract` texture extractor (`src/utils.rs`,
`src/extractors/tex.rs`) against its natural-language specification.

The Rust code is shallowly embedded: bytes are natural numbers (a well-formed
buffer has all entries `< 256`), `u8` truncation is `% 256`, fallible code
returns `Except`/`Option`, Rust slice-indexing panics are modelled by an
explicit `panicked` result, and the external decompression algorithms
(LZHAM, zstd, LZMA) are parameters of the dispatcher.
-/

namespace ScExtract

/-- One decoded RGBA sample: the `[u8; 4]` returned by `convert_pixel`. -/
structure Pixel where
  r : ℕ
  g : ℕ
  b : ℕ
  a : ℕ
  deriving DecidableEq, Repr

/-- Modelled from the spec (§7): the error enum of `src/error.rs`, which is
absent from the sources; the three variants below are the ones constructed by
`src/utils.rs` and `src/extractors/tex.rs`.  The spec's `SizeError` is the
`DecompressionError` carrying the message `"Size of file is too small"`
constructed at the top of `process_tex`. -/
inductive Error where
  | DecompressionError (msg : String)
  | UnknownPixel (msg : String)
  | IoError (msg : String)
  deriving DecidableEq, Repr

/-- The `Reader` of `src/utils.rs`: a `Cursor<&[u8]>` (buffer plus stream
position) together with the separately tracked `bytes_left` counter. -/
structure Reader where
  data : List ℕ
  pos : ℕ
  bytesLeft : ℕ
  deriving DecidableEq, Repr

namespace Reader

/-- Embeds `Reader::new`: `bytes_left` starts at the full buffer length. -/
def new (data : List ℕ) : Reader :=
  { data := data, pos := 0, bytesLeft := data.length }

/-- Embeds `Reader::len`: bytes left in the data stream (the tracked counter). -/
def len (r : Reader) : ℕ := r.bytesLeft

/-- The bytes of the underlying buffer not yet consumed by the stream. -/
def remStream (r : Reader) : List ℕ := r.data.drop r.pos

/-- Embeds `Reader::read(size)`.  The source first clamps `bytes_left`; if the new
counter is zero it calls `read_to_end`, which *appends* every remaining
stream byte to the freshly allocated zero buffer `vec![0; size]`; otherwise
it calls `read_exact`, which on a `Cursor` either fills the buffer with the
next `size` bytes or (insufficient data) fails without consuming, the error
being discarded by `unwrap_or_default`. -/
def read (r : Reader) (size : ℕ) : List ℕ × Reader :=
  let bl := if size > r.bytesLeft then 0 else r.bytesLeft - size
  if bl = 0 then
    (List.replicate size 0 ++ r.data.drop r.pos,
      { data := r.data, pos := r.data.length, bytesLeft := 0 })
  else
    if r.pos + size ≤ r.data.length then
      ((r.data.drop r.pos).take size,
        { data := r.data, pos := r.pos + size, bytesLeft := bl })
    else
      (List.replicate size 0, { data := r.data, pos := r.pos, bytesLeft := bl })

/-- Embeds `Reader::read_byte`: clamped decrement of `bytes_left`, then `read_u8`
(one byte, or the default `0` without consuming if the stream is empty). -/
def readByte (r : Reader) : ℕ × Reader :=
  let bl := if 1 > r.bytesLeft then 0 else r.bytesLeft - 1
  if r.pos + 1 ≤ r.data.length then
    (r.data.getD r.pos 0, { data := r.data, pos := r.pos + 1, bytesLeft := bl })
  else
    (0, { data := r.data, pos := r.pos, bytesLeft := bl })

/-- Embeds `Reader::read_uint16`: little-endian `u16`, default `0` (without
consuming) if fewer than two bytes remain in the stream. -/
def readUint16 (r : Reader) : ℕ × Reader :=
  let bl := if 2 > r.bytesLeft then 0 else r.bytesLeft - 2
  if r.pos + 2 ≤ r.data.length then
    (r.data.getD r.pos 0 + 256 * r.data.getD (r.pos + 1) 0,
      { data := r.data, pos := r.pos + 2, bytesLeft := bl })
  else
    (0, { data := r.data, pos := r.pos, bytesLeft := bl })

/-- Embeds `Reader::read_uint32`: little-endian `u32`, default `0` (without
consuming) if fewer than four bytes remain in the stream. -/
def readUint32 (r : Reader) : ℕ × Reader :=
  let bl := if 4 > r.bytesLeft then 0 else r.bytesLeft - 4
  if r.pos + 4 ≤ r.data.length then
    (r.data.getD r.pos 0 + 256 * r.data.getD (r.pos + 1) 0 +
        65536 * r.data.getD (r.pos + 2) 0 + 16777216 * r.data.getD (r.pos + 3) 0,
      { data := r.data, pos := r.pos + 4, bytesLeft := bl })
  else
    (0, { data := r.data, pos := r.pos, bytesLeft := bl })

/-- Two's-complement reinterpretation of an unsigned value of `2^w` states. -/
def toSigned (w v : ℕ) : ℤ := if v < 2 ^ (w - 1) then (v : ℤ) else (v : ℤ) - 2 ^ w

/-- Embeds `Reader::read_int16`: little-endian `i16`, same state behaviour as
`read_uint16`. -/
def readInt16 (r : Reader) : ℤ × Reader :=
  let (v, r') := r.readUint16
  (toSigned 16 v, r')

/-- Embeds `Reader::read_int32`: little-endian `i32`, same state behaviour as
`read_uint32`. -/
def readInt32 (r : Reader) : ℤ × Reader :=
  let (v, r') := r.readUint32
  (toSigned 32 v, r')

/-- Embeds `Reader::read_string(length)`: decrements `bytes_left` by `length`
(clamped) and then calls `self.read(length)`, which decrements it again.
The value is the byte sequence handed to `String::from_utf8_lossy`. -/
def readString (r : Reader) (length : ℕ) : List ℕ × Reader :=
  let bl := if length > r.bytesLeft then 0 else r.bytesLeft - length
  Reader.read { data := r.data, pos := r.pos, bytesLeft := bl } length

end Reader

/-- Embeds `convert_pixel` of `src/extractors/tex.rs`: reads one packed sample for
the given `pixel_type` and returns the RGBA quadruple; `as u8` casts are
`% 256`.  Unknown codes produce `Error::UnknownPixel`. -/
def convert_pixel (r : Reader) (pixelType : ℕ) : Reader × Except Error Pixel :=
  if pixelType = 0 ∨ pixelType = 1 then
    let (pixel, r') := r.read 4
    (r', .ok ⟨pixel.getD 0 0, pixel.getD 1 0, pixel.getD 2 0, pixel.getD 3 0⟩)
  else if pixelType = 2 then
    let (pixel, r') := r.readUint16
    (r', .ok ⟨(((pixel >>> 12) &&& 0xF) <<< 4) % 256,
              (((pixel >>> 8) &&& 0xF) <<< 4) % 256,
              (((pixel >>> 4) &&& 0xF) <<< 4) % 256,
              ((pixel &&& 0xF) <<< 4) % 256⟩)
  else if pixelType = 3 then
    let (pixel, r') := r.readUint16
    (r', .ok ⟨(((pixel >>> 11) &&& 0x1F) <<< 3) % 256,
              (((pixel >>> 6) &&& 0x1F) <<< 3) % 256,
              (((pixel >>> 1) &&& 0x1F) <<< 3) % 256,
              ((pixel &&& 0xFF) <<< 7) % 256⟩)
  else if pixelType = 4 then
    let (pixel, r') := r.readUint16
    (r', .ok ⟨(((pixel >>> 11) &&& 0x1F) <<< 3) % 256,
              (((pixel >>> 5) &&& 0x3F) <<< 2) % 256,
              ((pixel &&& 0x1F) <<< 3) % 256,
              255⟩)
  else if pixelType = 6 then
    let (pixel, r') := r.readUint16
    (r', .ok ⟨(pixel >>> 8) % 256, (pixel >>> 8) % 256, (pixel >>> 8) % 256,
              (pixel &&& 0xFF) % 256⟩)
  else if pixelType = 10 then
    let (pixel, r') := r.readByte
    (r', .ok ⟨pixel, pixel, pixel, pixel⟩)
  else
    (r, .error (.UnknownPixel ("Unknown pixel type (" ++ toString pixelType ++ ").")))

/-- An `RgbaImage` is modelled as a total function from `(x, y)` to pixels. -/
def Grid : Type := (ℕ × ℕ) → Pixel

/-- An `RgbaImage::new` image is filled the image with zeroed pixels. -/
def blankPixel : Pixel := ⟨0, 0, 0, 0⟩

/-- Embeds `img.put_pixel(x, y, px)` as a functional update. -/
def putPixel (img : Grid) (x y : ℕ) (px : Pixel) : Grid :=
  fun p => if p = (x, y) then px else img p

/-- The inner `while` loops of `adjust_pixels`: starting from `h`, emit `h`
and increment while `h != stop && h < bound`.  The loop variable increments
by one towards `stop`, so `stop - h` steps suffice; `fuel` is that bound
(the call sites pass `block_size = 32` with `stop = start + 32`). -/
def whileLoop (stop bound : ℕ) : ℕ → ℕ → List ℕ
  | _, 0 => []
  | h, fuel + 1 =>
    if h ≠ stop ∧ h < bound then h :: whileLoop stop bound (h + 1) fuel else []

/-- The sequence of `(w, h)` coordinates visited by `adjust_pixels`
(`src/extractors/tex.rs`): `ceil(height/32) × ceil(width/32)` tiles scanned
left-to-right then top-to-bottom, inside each tile rows then columns, both
clipped at the image boundary.  The source computes the two limits with
`f64` division and `ceil`; both are exact for `u32` inputs (every `u32` is
an exact `f64` and dividing by `32` only shifts the exponent), so they are
embedded as `(n + 31) / 32`. -/
def tileCoords (width height : ℕ) : List (ℕ × ℕ) :=
  let blockSize := 32
  let hLimit := (height + blockSize - 1) / blockSize
  let wLimit := (width + blockSize - 1) / blockSize
  (List.range hLimit).flatMap fun th =>
    (List.range wLimit).flatMap fun tw =>
      (whileLoop ((th + 1) * blockSize) height (th * blockSize) blockSize).flatMap fun h =>
        (whileLoop ((tw + 1) * blockSize) width (tw * blockSize) blockSize).map fun w =>
          (w, h)

/-- The body of `adjust_pixels`: write `pixels[i]` at the successive
coordinates, incrementing `i`; indexing `pixels[i]` out of bounds is a Rust
panic, modelled as `none`. -/
def writeIdx (img : Grid) (pixels : List Pixel) : List (ℕ × ℕ) → ℕ → Option (Grid × ℕ)
  | [], i => some (img, i)
  | c :: cs, i =>
    if h : i < pixels.length then
      writeIdx (putPixel img c.1 c.2 (pixels.get ⟨i, h⟩)) pixels cs (i + 1)
    else
      none

/-- Embeds `adjust_pixels(img, pixels, height, width)` of `src/extractors/tex.rs`:
rewrite `img` by placing the flat `pixels` sequence at the 32×32 block-scan
coordinates. -/
def adjust_pixels (img : Grid) (pixels : List Pixel) (height width : ℕ) : Option Grid :=
  (writeIdx img pixels (tileCoords width height) 0).map Prod.fst

/-- Sequential `put_pixel` writes of coordinate/pixel pairs. -/
def writeSeq (img : Grid) : List ((ℕ × ℕ) × Pixel) → Grid
  | [] => img
  | (c, px) :: rest => writeSeq (putPixel img c.1 c.2 px) rest

/-- Raster scan order of the pixel-decoding loop of `process_tex`:
`y` outermost over `0..height`, `x` innermost over `0..width`. -/
def rasterCoords (width height : ℕ) : List (ℕ × ℕ) :=
  (List.range height).flatMap fun y => (List.range width).map fun x => (x, y)

/-- The image built by the decoding loop of `process_tex` before any tile
adjustment: pixel `i` written at the `i`-th raster coordinate of a fresh
(zeroed) `RgbaImage`. -/
def rasterImg (pixels : List Pixel) (width height : ℕ) : Grid :=
  writeSeq (fun _ => blankPixel) ((rasterCoords width height).zip pixels)

/-- One emitted sprite of `process_tex`: the chunk header fields, the decoded
pixel sequence, the zero-based ordinal `pic_count` used for the filename
suffix, and the saved image. -/
structure Sprite where
  fileType : ℕ
  subType : ℕ
  width : ℕ
  height : ℕ
  pixels : List Pixel
  ordinal : ℕ
  img : Grid

/-- The pixel-decoding double loop of `process_tex`: `width * height` calls
to `convert_pixel`, aborting at the first error (which, `convert_pixel`
failing only on unrecognized sub-types, is the very first call). -/
def readPixels : Reader → ℕ → ℕ → Reader × Except Error (List Pixel)
  | r, _, 0 => (r, .ok [])
  | r, subType, n + 1 =>
    match convert_pixel r subType with
    | (r', .error e) => (r', .error e)
    | (r', .ok px) =>
      match readPixels r' subType n with
      | (r'', .error e) => (r'', .error e)
      | (r'', .ok rest) => (r'', .ok (px :: rest))

/-- One iteration of the `'main` chunk loop of `process_tex`: test the loop
guard `reader.len() > 0`, read the chunk type and declared size, then either
skip an unrecognized chunk or decode an image chunk, continuing through
`rec` (the remaining iterations).  Saving the image to disk is modelled as
always succeeding; `none` is a Rust panic (out-of-bounds `pixels[i]` inside
`adjust_pixels`). -/
def processIter (rec : Reader → ℕ → Option (List Sprite)) (r : Reader)
    (picCount : ℕ) : Option (List Sprite) :=
  if r.len = 0 then some []
  else
    let fileType := (r.readByte).1
    let r1 := (r.readByte).2
    let _fileSize := (r1.readUint32).1
    let r2 := (r1.readUint32).2
    if ¬ (fileType = 1 ∨ fileType = 24 ∨ fileType = 27 ∨ fileType = 28) then
      rec (r2.read _fileSize).2 picCount
    else
      let subType := (r2.readByte).1
      let r3 := (r2.readByte).2
      let width := (r3.readUint16).1
      let r4 := (r3.readUint16).2
      let height := (r4.readUint16).1
      let r5 := (r4.readUint16).2
      let r6 := (readPixels r5 subType (width * height)).1
      match (readPixels r5 subType (width * height)).2 with
      | .error _ => rec r6 picCount
      | .ok pixels =>
        let raster := rasterImg pixels width height
        let imgOpt := if fileType = 27 ∨ fileType = 28 then
            adjust_pixels raster pixels height width
          else some raster
        match imgOpt with
        | none => none
        | some img =>
          (rec r6 (picCount + 1)).map
            (fun rest => ⟨fileType, subType, width, height, pixels, picCount, img⟩ :: rest)

/-- The `'main` chunk loop of `process_tex`, fuelled.  Every iteration
strictly decreases `bytes_left` (the loop runs only while it is positive and
`read_byte` then decrements it), so any fuel above the initial `bytes_left`
is enough; `processLoop` below supplies it. -/
def processLoopF : ℕ → Reader → ℕ → Option (List Sprite)
  | 0, _, _ => none
  | fuel + 1, r, picCount => processIter (processLoopF fuel) r picCount

/-- The chunk loop of `process_tex` started on a fresh reader state. -/
def processLoop (r : Reader) (picCount : ℕ) : Option (List Sprite) :=
  processLoopF (r.bytesLeft + 1) r picCount

/-- Outcome of a fallible operation that may also panic (Rust slice indexing
out of bounds). -/
inductive PResult (α : Type) where
  | ok (val : α)
  | err (e : Error)
  | panicked
  deriving DecidableEq, Repr

/-- The three external decompression collaborators (spec §6): LZHAM with a
dictionary-size exponent and an expected uncompressed size, zstd, and LZMA
(whose failure carries a message that the dispatcher wraps). -/
structure Decoders where
  lzham : List ℕ → ℕ → ℕ → Option (List ℕ)
  zstd : List ℕ → Option (List ℕ)
  lzma : List ℕ → Except String (List ℕ)

/-- Embeds `decompress` of `src/utils.rs` (the macOS/Linux build, where LZHAM is
available).  Slice expressions `raw_data[..4]`, `raw_data[4..5]`,
`raw_data[5..9]`, `raw_data[9..]` and `raw_data[0..9]` panic when the slice
is shorter than the upper bound, modelled by `panicked`. -/
def decompress (d : Decoders) (raw : List ℕ) : PResult (List ℕ) :=
  if raw.length < 4 then .panicked
  else if raw.take 4 = [83, 67, 76, 90] then
    if raw.length < 9 then .panicked
    else
      let dictSize := raw.getD 4 0
      let uncompressedSize := raw.getD 5 0 + 256 * raw.getD 6 0 +
        65536 * raw.getD 7 0 + 16777216 * raw.getD 8 0
      match d.lzham (raw.drop 9) dictSize uncompressedSize with
      | none => .err (.DecompressionError "Failed to decompress file")
      | some out => .ok out
  else if raw.take 4 = [40, 181, 47, 253] then
    match d.zstd raw with
    | none => .err (.DecompressionError "Failed to decompress file")
    | some out => .ok out
  else
    if raw.length < 9 then .panicked
    else
      let spliced := raw.take 9 ++ [0, 0, 0, 0] ++ raw.drop 9
      match d.lzma spliced with
      | .error e => .err (.DecompressionError ("Failed to decompress file: " ++ e))
      | .ok out => .ok out

/-- The big-endian `u32` version field at `raw_data[2..6]`. -/
def texVersion (raw : List ℕ) : ℕ :=
  raw.getD 2 0 * 16777216 + raw.getD 3 0 * 65536 + raw.getD 4 0 * 256 + raw.getD 5 0

/-- The big-endian `u32` hash-length field at `raw_data[6..10]`. -/
def texHashLength (raw : List ℕ) : ℕ :=
  raw.getD 6 0 * 16777216 + raw.getD 7 0 * 65536 + raw.getD 8 0 * 256 + raw.getD 9 0

/-- Lines 135–150 of `src/extractors/tex.rs`: the size guard, the header
fields, and the `output` buffer the chunk loop will scan — decompressed from
the tail `raw_data[10 + hash_length..]` for versions 0, 1 and 3 (the slice
panics when `10 + hash_length` exceeds the input length), and the *whole*
input `raw_data.to_vec()` for any other version. -/
def texBuffer (d : Decoders) (raw : List ℕ) : PResult (List ℕ) :=
  if raw.length < 35 then .err (.DecompressionError "Size of file is too small")
  else
    let version := texVersion raw
    let hashLength := texHashLength raw
    if version = 0 ∨ version = 1 ∨ version = 3 then
      if raw.length < 10 + hashLength then .panicked
      else decompress d (raw.drop (10 + hashLength))
    else .ok raw

/-- Embeds `process_tex` of `src/extractors/tex.rs`: produce the buffer, then run
the chunk loop on a fresh `Reader`; the emitted sprites stand for the saved
image files (writing is modelled as always succeeding). -/
def process_tex (d : Decoders) (raw : List ℕ) : PResult (List Sprite) :=
  match texBuffer d raw with
  | .err e => .err e
  | .panicked => .panicked
  | .ok out =>
    match processLoop (Reader.new out) 0 with
    | none => .panicked
    | some sprites => .ok sprites

/-! Serialization helpers used only to build concrete containers and state
the claims; they are not part of the embedded program. -/

/-- Little-endian serialization of a 16-bit value. -/
def u16le (v : ℕ) : List ℕ := [v % 256, v / 256 % 256]

/-- Little-endian serialization of a 32-bit value. -/
def u32le (v : ℕ) : List ℕ := [v % 256, v / 256 % 256, v / 65536 % 256, v / 16777216 % 256]

/-- Bytes of one image chunk: type, declared size, sub-type, width, height,
then the packed pixel payload. -/
def chunkBytes (t sz s w h : ℕ) (payload : List ℕ) : List ℕ :=
  t :: (u32le sz ++ s :: (u16le w ++ u16le h ++ payload))

/-- Byte width consumed per pixel for each recognized sub-format code. -/
def bpp (c : ℕ) : ℕ :=
  if c = 0 ∨ c = 1 then 4 else if c = 10 then 1 else 2

/-- The recognized pixel sub-format codes. -/
def recognizedPixel (c : ℕ) : Prop :=
  c = 0 ∨ c = 1 ∨ c = 2 ∨ c = 3 ∨ c = 4 ∨ c = 6 ∨ c = 10

instance (c : ℕ) : Decidable (recognizedPixel c) := by
  unfold recognizedPixel; infer_instance

/-! Specification-side definitions (written from the spec's words, §4.4 and
§4.5, to be compared with the source-derived definitions above). -/

/-- Modelled from the spec, §4.4: the RGBA sample defined by the table for a
sub-format code and the consumed bytes (multi-byte samples little-endian). -/
def specPixelTable (c : ℕ) (bytes : List ℕ) : Pixel :=
  let b0 := bytes.getD 0 0
  let v := bytes.getD 0 0 + 256 * bytes.getD 1 0
  if c = 0 ∨ c = 1 then
    ⟨bytes.getD 0 0, bytes.getD 1 0, bytes.getD 2 0, bytes.getD 3 0⟩
  else if c = 2 then
    ⟨((v >>> 12) &&& 0xF) <<< 4, ((v >>> 8) &&& 0xF) <<< 4,
     ((v >>> 4) &&& 0xF) <<< 4, (v &&& 0xF) <<< 4⟩
  else if c = 3 then
    ⟨((v >>> 11) &&& 0x1F) <<< 3, ((v >>> 6) &&& 0x1F) <<< 3,
     ((v >>> 1) &&& 0x1F) <<< 3, (v &&& 1) * 128⟩
  else if c = 4 then
    ⟨((v >>> 11) &&& 0x1F) <<< 3, ((v >>> 5) &&& 0x3F) <<< 2,
     (v &&& 0x1F) <<< 3, 255⟩
  else if c = 6 then
    ⟨v >>> 8, v >>> 8, v >>> 8, v &&& 0xFF⟩
  else if c = 10 then
    ⟨b0, b0, b0, b0⟩
  else
    blankPixel

/-- Modelled from the spec, §4.5: the 32×32 block-scan order — partition the
image into `ceil(height/32) × ceil(width/32)` tiles scanned left-to-right,
top-to-bottom; within each tile rows top-to-bottom and columns
left-to-right, clipped at the image boundary. -/
def specBlockScan (width height : ℕ) : List (ℕ × ℕ) :=
  (List.range ((height + 31) / 32)).flatMap fun th =>
    (List.range ((width + 31) / 32)).flatMap fun tw =>
      (List.range' (th * 32) (min ((th + 1) * 32) height - th * 32)).flatMap fun h =>
        (List.range' (tw * 32) (min ((tw + 1) * 32) width - tw * 32)).map fun w =>
          (w, h)

/-- Serializing a raster grid into 32×32 block-scan order: the `i`-th element
of the flat sequence is the grid value at the `i`-th block-scan coordinate. -/
def tileSerialize (grid : Grid) (width height : ℕ) : List Pixel :=
  (specBlockScan width height).map grid

/-- One `Reader` operation, to state invariants over operation sequences. -/
inductive ROp where
  | read (n : ℕ)
  | readByte
  | readUint16
  | readUint32
  | readInt16
  | readInt32
  | readString (n : ℕ)

/-- The reader state after one operation (returned values discarded). -/
def applyOp (r : Reader) : ROp → Reader
  | .read n => (r.read n).2
  | .readByte => (r.readByte).2
  | .readUint16 => (r.readUint16).2
  | .readUint32 => (r.readUint32).2
  | .readInt16 => (r.readInt16).2
  | .readInt32 => (r.readInt32).2
  | .readString n => (r.readString n).2

/-- The reader state after a sequence of operations. -/
def applyOps (r : Reader) (ops : List ROp) : Reader :=
  ops.foldl applyOp r

/-- Concrete fixture: a single type-27 chunk, 2×2, sub-type 10. -/
def cont27 : List ℕ := chunkBytes 27 9 10 2 2 [1, 2, 3, 4]

/-- The sprite the chunk loop emits for `cont27`. -/
def spr27 : Sprite :=
  ((processLoop (Reader.new cont27) 0).getD []).getD 0
    ⟨0, 0, 0, 0, [], 0, fun _ => blankPixel⟩

/-! Reader state lemmas. -/

namespace Reader

/-- Well-formedness: the stream position is inside the buffer and the tracked
counter does not exceed the bytes actually left in the stream. -/
def Wf (r : Reader) : Prop :=
  r.pos ≤ r.data.length ∧ r.bytesLeft ≤ r.data.length - r.pos

/-- A reader whose tracked counter equals the bytes actually left. -/
def Aligned (r : Reader) : Prop :=
  r.pos ≤ r.data.length ∧ r.bytesLeft = r.data.length - r.pos

/-- Cursor advance by `n` consumed bytes. -/
def adv (r : Reader) (n : ℕ) : Reader :=
  { data := r.data, pos := r.pos + n, bytesLeft := r.bytesLeft - n }

theorem Aligned.wf {r : Reader} (h : r.Aligned) : r.Wf := ⟨h.1, le_of_eq h.2⟩

theorem aligned_new (data : List ℕ) : (Reader.new data).Aligned :=
  ⟨Nat.zero_le _, by simp [Reader.new]⟩

theorem length_remStream {r : Reader} : r.remStream.length = r.data.length - r.pos := by
  simp [remStream]

theorem adv_aligned {r : Reader} (h : r.Aligned) {n : ℕ} (hn : n ≤ r.bytesLeft) :
    (r.adv n).Aligned := by
  obtain ⟨h1, h2⟩ := h
  exact ⟨by simp [adv]; omega, by simp [adv]; omega⟩

theorem remStream_adv (r : Reader) (n : ℕ) :
    (r.adv n).remStream = r.remStream.drop n := by
  simp [remStream, adv, List.drop_drop, Nat.add_comm]

theorem adv_adv (r : Reader) (m n : ℕ) : (r.adv m).adv n = r.adv (m + n) := by
  simp [adv, Nat.add_assoc, Nat.sub_sub]

/-- State effect of `read` when at most `bytes_left` bytes are requested from
an aligned cursor: exactly `size` bytes are consumed. -/
theorem read_adv {r : Reader} (hal : r.Aligned) {size : ℕ} (h : size ≤ r.bytesLeft) :
    (r.read size).2 = r.adv size := by
  obtain ⟨h1, h2⟩ := hal
  unfold read
  dsimp only
  rcases Nat.lt_or_ge size r.bytesLeft with hlt | hge
  · have hbl : ¬ (size > r.bytesLeft) := by omega
    simp only [hbl, if_false]
    have hne : ¬ (r.bytesLeft - size = 0) := by omega
    simp only [hne, if_false]
    have hpos : r.pos + size ≤ r.data.length := by omega
    simp [hpos, adv]
  · have hsz : size = r.bytesLeft := by omega
    subst hsz
    simp only [gt_iff_lt, Nat.lt_irrefl, if_false, Nat.sub_self, if_pos rfl]
    simp [adv]
    omega

/-- Value of `read` on an aligned cursor holding strictly more than `size`
bytes: the next `size` bytes of the stream. -/
theorem read_exact {r : Reader} (hal : r.Aligned) {size : ℕ} (h : size < r.bytesLeft) :
    r.read size = (r.remStream.take size, r.adv size) := by
  obtain ⟨h1, h2⟩ := hal
  unfold read
  dsimp only
  have hbl : ¬ (size > r.bytesLeft) := by omega
  simp only [hbl, if_false]
  have hne : ¬ (r.bytesLeft - size = 0) := by omega
  simp only [hne, if_false]
  have hpos : r.pos + size ≤ r.data.length := by omega
  simp [hpos, adv, remStream]

theorem readByte_adv {r : Reader} (hal : r.Aligned) (h : 1 ≤ r.bytesLeft) :
    (r.readByte).2 = r.adv 1 := by
  obtain ⟨h1, h2⟩ := hal
  unfold readByte
  dsimp only
  have hpos : r.pos + 1 ≤ r.data.length := by omega
  simp [hpos, adv]
  omega

theorem readByte_cons {r : Reader} (hal : r.Aligned) {b : ℕ} {l : List ℕ}
    (h : r.remStream = b :: l) : r.readByte = (b, r.adv 1) := by
  obtain ⟨h1, h2⟩ := hal
  have hlen : r.data.length - r.pos = l.length + 1 := by
    have := congrArg List.length h
    simpa [remStream] using this
  have hb : r.data[r.pos]? = some b := by
    have h0 : r.data[r.pos + 0]? = some b := by
      rw [← List.getElem?_drop]
      simp only [remStream] at h
      rw [h]; simp
    simpa using h0
  unfold readByte
  dsimp only
  have hpos : r.pos + 1 ≤ r.data.length := by omega
  simp [hpos, List.getD_eq_getElem?_getD, hb, adv]
  omega

theorem readUint16_adv {r : Reader} (hal : r.Aligned) (h : 2 ≤ r.bytesLeft) :
    (r.readUint16).2 = r.adv 2 := by
  obtain ⟨h1, h2⟩ := hal
  unfold readUint16
  dsimp only
  have hpos : r.pos + 2 ≤ r.data.length := by omega
  simp [hpos, adv]
  omega

theorem readUint16_cons {r : Reader} (hal : r.Aligned) {a b : ℕ} {l : List ℕ}
    (h : r.remStream = a :: b :: l) : r.readUint16 = (a + 256 * b, r.adv 2) := by
  obtain ⟨h1, h2⟩ := hal
  have hlen : r.data.length - r.pos = l.length + 2 := by
    have := congrArg List.length h
    simpa [remStream] using this
  have ha : r.data[r.pos]? = some a := by
    have h0 : r.data[r.pos + 0]? = some a := by
      rw [← List.getElem?_drop]
      simp only [remStream] at h
      rw [h]; simp
    simpa using h0
  have hb : r.data[r.pos + 1]? = some b := by
    rw [← List.getElem?_drop]
    simp only [remStream] at h
    rw [h]; simp
  unfold readUint16
  dsimp only
  have hpos : r.pos + 2 ≤ r.data.length := by omega
  simp [hpos, List.getD_eq_getElem?_getD, ha, hb, adv]
  omega

theorem readUint32_adv {r : Reader} (hal : r.Aligned) (h : 4 ≤ r.bytesLeft) :
    (r.readUint32).2 = r.adv 4 := by
  obtain ⟨h1, h2⟩ := hal
  unfold readUint32
  dsimp only
  have hpos : r.pos + 4 ≤ r.data.length := by omega
  simp [hpos, adv]
  omega

theorem readUint32_cons {r : Reader} (hal : r.Aligned) {a b c d : ℕ} {l : List ℕ}
    (h : r.remStream = a :: b :: c :: d :: l) :
    r.readUint32 = (a + 256 * b + 65536 * c + 16777216 * d, r.adv 4) := by
  obtain ⟨h1, h2⟩ := hal
  have hlen : r.data.length - r.pos = l.length + 4 := by
    have := congrArg List.length h
    simpa [remStream] using this
  have hget : ∀ (k v : ℕ), (a :: b :: c :: d :: l)[k]? = some v →
      r.data[r.pos + k]? = some v := by
    intro k v hk
    rw [← List.getElem?_drop]
    simp only [remStream] at h
    rw [h]; exact hk
  have ha' := hget 0 a (by simp)
  have ha : r.data[r.pos]? = some a := by simpa using ha'
  have hb := hget 1 b (by simp)
  have hc := hget 2 c (by simp)
  have hd := hget 3 d (by simp)
  unfold readUint32
  dsimp only
  have hpos : r.pos + 4 ≤ r.data.length := by omega
  simp [hpos, List.getD_eq_getElem?_getD, ha, hb, hc, hd, adv]
  omega

theorem read_spec (r : Reader) (size : ℕ) :
    (r.read size).2.data = r.data ∧ (r.read size).2.bytesLeft ≤ r.bytesLeft ∧
      (r.Wf → (r.read size).2.Wf) := by
  unfold read Wf
  dsimp only
  rcases Nat.lt_or_ge size r.bytesLeft with hlt | hge
  · have hbl : (if size > r.bytesLeft then 0 else r.bytesLeft - size) =
        r.bytesLeft - size := by dsimp only; split <;> omega
    rw [hbl, if_neg (by omega : ¬ (r.bytesLeft - size = 0))]
    by_cases hp : r.pos + size ≤ r.data.length
    · rw [if_pos hp]
      exact ⟨rfl, by dsimp only; omega, fun hw => ⟨hp, by dsimp only; omega⟩⟩
    · rw [if_neg hp]
      exact ⟨rfl, by dsimp only; omega, fun hw => ⟨hw.1, by dsimp only; omega⟩⟩
  · have hbl : (if size > r.bytesLeft then 0 else r.bytesLeft - size) = 0 := by
      split <;> omega
    rw [hbl, if_pos rfl]
    exact ⟨rfl, Nat.zero_le _, fun _ => ⟨Nat.le_refl _, Nat.zero_le _⟩⟩

theorem readByte_spec (r : Reader) :
    (r.readByte).2.data = r.data ∧ (r.readByte).2.bytesLeft ≤ r.bytesLeft ∧
      (r.Wf → (r.readByte).2.Wf) := by
  unfold readByte Wf
  dsimp only
  by_cases hp : r.pos + 1 ≤ r.data.length
  · rw [if_pos hp]
    exact ⟨rfl, by dsimp only; split <;> omega, fun hw => ⟨hp, by dsimp only; split <;> omega⟩⟩
  · rw [if_neg hp]
    exact ⟨rfl, by dsimp only; split <;> omega, fun hw => ⟨hw.1, by dsimp only; split <;> omega⟩⟩

theorem readUint16_spec (r : Reader) :
    (r.readUint16).2.data = r.data ∧ (r.readUint16).2.bytesLeft ≤ r.bytesLeft ∧
      (r.Wf → (r.readUint16).2.Wf) := by
  unfold readUint16 Wf
  dsimp only
  by_cases hp : r.pos + 2 ≤ r.data.length
  · rw [if_pos hp]
    exact ⟨rfl, by dsimp only; split <;> omega, fun hw => ⟨by dsimp only; omega, by dsimp only; split <;> omega⟩⟩
  · rw [if_neg hp]
    exact ⟨rfl, by dsimp only; split <;> omega, fun hw => ⟨hw.1, by dsimp only; split <;> omega⟩⟩

theorem readUint32_spec (r : Reader) :
    (r.readUint32).2.data = r.data ∧ (r.readUint32).2.bytesLeft ≤ r.bytesLeft ∧
      (r.Wf → (r.readUint32).2.Wf) := by
  unfold readUint32 Wf
  dsimp only
  by_cases hp : r.pos + 4 ≤ r.data.length
  · rw [if_pos hp]
    exact ⟨rfl, by dsimp only; split <;> omega, fun hw => ⟨by dsimp only; omega, by dsimp only; split <;> omega⟩⟩
  · rw [if_neg hp]
    exact ⟨rfl, by dsimp only; split <;> omega, fun hw => ⟨hw.1, by dsimp only; split <;> omega⟩⟩

theorem readInt16_spec (r : Reader) :
    (r.readInt16).2.data = r.data ∧ (r.readInt16).2.bytesLeft ≤ r.bytesLeft ∧
      (r.Wf → (r.readInt16).2.Wf) := by
  unfold readInt16
  exact readUint16_spec r

theorem readInt32_spec (r : Reader) :
    (r.readInt32).2.data = r.data ∧ (r.readInt32).2.bytesLeft ≤ r.bytesLeft ∧
      (r.Wf → (r.readInt32).2.Wf) := by
  unfold readInt32
  exact readUint32_spec r

theorem readString_spec (r : Reader) (length : ℕ) :
    (r.readString length).2.data = r.data ∧
      (r.readString length).2.bytesLeft ≤ r.bytesLeft ∧
      (r.Wf → (r.readString length).2.Wf) := by
  unfold readString
  dsimp only
  set r1 : Reader :=
    { data := r.data, pos := r.pos,
      bytesLeft := if length > r.bytesLeft then 0 else r.bytesLeft - length } with hr1
  obtain ⟨hd, hb, hw⟩ := read_spec r1 length
  refine ⟨hd, ?_, fun hwf => hw ⟨hwf.1, ?_⟩⟩
  · refine hb.trans ?_
    rw [hr1]; dsimp only; split <;> omega
  · obtain ⟨hw1, hw2⟩ := hwf
    rw [hr1]; dsimp only; split <;> omega

/-- The `bytes_left` counter strictly decreases on `read_byte` whenever the
loop guard `reader.len() > 0` holds. -/
theorem readByte_strict (r : Reader) (h : 0 < r.bytesLeft) :
    (r.readByte).2.bytesLeft = r.bytesLeft - 1 := by
  unfold readByte
  dsimp only
  split <;> dsimp only <;> split <;> omega

end Reader

theorem applyOp_spec (r : Reader) (op : ROp) :
    (applyOp r op).data = r.data ∧ (applyOp r op).bytesLeft ≤ r.bytesLeft ∧
      (r.Wf → (applyOp r op).Wf) := by
  cases op with
  | read n => exact Reader.read_spec r n
  | readByte => exact Reader.readByte_spec r
  | readUint16 => exact Reader.readUint16_spec r
  | readUint32 => exact Reader.readUint32_spec r
  | readInt16 => exact Reader.readInt16_spec r
  | readInt32 => exact Reader.readInt32_spec r
  | readString n => exact Reader.readString_spec r n

theorem applyOps_spec (ops : List ROp) (r : Reader) :
    (applyOps r ops).data = r.data ∧ (applyOps r ops).bytesLeft ≤ r.bytesLeft ∧
      (r.Wf → (applyOps r ops).Wf) := by
  induction ops generalizing r with
  | nil => exact ⟨rfl, Nat.le_refl _, id⟩
  | cons op ops ih =>
    obtain ⟨d1, b1, w1⟩ := applyOp_spec r op
    obtain ⟨d2, b2, w2⟩ := ih (applyOp r op)
    exact ⟨d2.trans d1, b2.trans (b1.trans (Nat.le_refl _)), fun hw => w2 (w1 hw)⟩

/-! Lemmas on `convert_pixel` and the pixel-decoding loop. -/

theorem adv_zero (r : Reader) : r.adv 0 = r := by
  simp [Reader.adv]

theorem convert_pixel_mono (r : Reader) (c : ℕ) :
    (convert_pixel r c).1.data = r.data ∧
      (convert_pixel r c).1.bytesLeft ≤ r.bytesLeft := by
  unfold convert_pixel
  split_ifs with h1 h2 h3 h4 h6 h10
  · exact ⟨(Reader.read_spec r 4).1, (Reader.read_spec r 4).2.1⟩
  · exact ⟨(Reader.readUint16_spec r).1, (Reader.readUint16_spec r).2.1⟩
  · exact ⟨(Reader.readUint16_spec r).1, (Reader.readUint16_spec r).2.1⟩
  · exact ⟨(Reader.readUint16_spec r).1, (Reader.readUint16_spec r).2.1⟩
  · exact ⟨(Reader.readUint16_spec r).1, (Reader.readUint16_spec r).2.1⟩
  · exact ⟨(Reader.readByte_spec r).1, (Reader.readByte_spec r).2.1⟩
  · exact ⟨rfl, Nat.le_refl _⟩

/-- Consumed-bytes contract of `convert_pixel` on an aligned cursor holding
at least the code's byte width. -/
theorem convert_pixel_fst {r : Reader} (hal : r.Aligned) {c : ℕ}
    (hc : recognizedPixel c) (hbl : bpp c ≤ r.bytesLeft) :
    (convert_pixel r c).1 = r.adv (bpp c) := by
  rcases hc with h | h | h | h | h | h | h <;> subst h
  · exact (Reader.read_adv hal (by simpa [bpp] using hbl) :
      (Reader.read r 4).2 = _)
  · exact (Reader.read_adv hal (by simpa [bpp] using hbl) :
      (Reader.read r 4).2 = _)
  · exact (Reader.readUint16_adv hal (by simpa [bpp] using hbl) :
      (Reader.readUint16 r).2 = _)
  · exact (Reader.readUint16_adv hal (by simpa [bpp] using hbl) :
      (Reader.readUint16 r).2 = _)
  · exact (Reader.readUint16_adv hal (by simpa [bpp] using hbl) :
      (Reader.readUint16 r).2 = _)
  · exact (Reader.readUint16_adv hal (by simpa [bpp] using hbl) :
      (Reader.readUint16 r).2 = _)
  · exact (Reader.readByte_adv hal (by simpa [bpp] using hbl) :
      (Reader.readByte r).2 = _)

/-- The function `convert_pixel` succeeds on every recognized code (short reads degrade to
default values rather than failing). -/
theorem convert_pixel_ok (r : Reader) {c : ℕ} (hc : recognizedPixel c) :
    ∃ px, (convert_pixel r c).2 = Except.ok px := by
  rcases hc with h | h | h | h | h | h | h <;> subst h <;> exact ⟨_, rfl⟩

/-- Running `convert_pixel` on an unrecognized code: no bytes are consumed and the
`UnknownPixel` error carries the offending code. -/
theorem convert_pixel_unknown (r : Reader) {c : ℕ} (hc : ¬ recognizedPixel c) :
    convert_pixel r c =
      (r, .error (.UnknownPixel ("Unknown pixel type (" ++ toString c ++ ")."))) := by
  unfold recognizedPixel at hc
  push_neg at hc
  obtain ⟨h0, h1, h2, h3, h4, h6, h10⟩ := hc
  unfold convert_pixel
  rw [if_neg (by tauto), if_neg h2, if_neg h3, if_neg h4, if_neg h6, if_neg h10]

theorem readPixels_mono : ∀ (n : ℕ) (r : Reader) (c : ℕ),
    (readPixels r c n).1.data = r.data ∧
      (readPixels r c n).1.bytesLeft ≤ r.bytesLeft := by
  intro n
  induction n with
  | zero => intro r c; exact ⟨rfl, Nat.le_refl _⟩
  | succ n ih =>
    intro r c
    obtain ⟨hd, hb⟩ := convert_pixel_mono r c
    rcases h1 : convert_pixel r c with ⟨r', e⟩
    rw [h1] at hd hb
    cases e with
    | error e => simp only [readPixels, h1]; exact ⟨hd, hb⟩
    | ok px =>
      obtain ⟨hd2, hb2⟩ := ih r' c
      rcases h2 : readPixels r' c n with ⟨r'', e2⟩
      rw [h2] at hd2 hb2
      cases e2 with
      | error e => simp only [readPixels, h1, h2]; exact ⟨hd2.trans hd, hb2.trans hb⟩
      | ok rest => simp only [readPixels, h1, h2]; exact ⟨hd2.trans hd, hb2.trans hb⟩

/-- Pixel decoding of `n` samples of a recognized code from an aligned cursor
with enough tracked bytes: exactly `n * bpp` bytes are consumed and `n`
samples are produced. -/
theorem readPixels_consume {c : ℕ} (hc : recognizedPixel c) :
    ∀ (n : ℕ) (r : Reader), r.Aligned → n * bpp c ≤ r.bytesLeft →
      ∃ pxs : List Pixel,
        readPixels r c n = (r.adv (n * bpp c), Except.ok pxs) ∧ pxs.length = n := by
  intro n
  induction n with
  | zero =>
    intro r hal _
    exact ⟨[], by simp [readPixels, adv_zero], rfl⟩
  | succ n ih =>
    intro r hal hbl
    rw [Nat.succ_mul] at hbl
    have hb1 : bpp c ≤ r.bytesLeft := by omega
    have hfst := convert_pixel_fst hal hc hb1
    obtain ⟨px, hok⟩ := convert_pixel_ok r hc
    have hal' : (r.adv (bpp c)).Aligned := Reader.adv_aligned hal hb1
    have hbl' : n * bpp c ≤ (r.adv (bpp c)).bytesLeft := by
      simp only [Reader.adv]; omega
    obtain ⟨pxs, hrec, hlen⟩ := ih (r.adv (bpp c)) hal' hbl'
    refine ⟨px :: pxs, ?_, by simp [hlen]⟩
    have hcp : convert_pixel r c = (r.adv (bpp c), Except.ok px) := by
      rw [← hfst, ← hok]
    simp only [readPixels, hcp, hrec, Reader.adv_adv]
    rw [Nat.succ_mul, Nat.add_comm]

/-- A successful pixel-decoding pass yields exactly `n` samples. -/
theorem readPixels_len : ∀ (n : ℕ) (r r' : Reader) (c : ℕ) (pxs : List Pixel),
    readPixels r c n = (r', Except.ok pxs) → pxs.length = n := by
  intro n
  induction n with
  | zero =>
    intro r r' c pxs h
    simp only [readPixels] at h
    cases h
    rfl
  | succ n ih =>
    intro r r' c pxs h
    simp only [readPixels] at h
    rcases h1 : convert_pixel r c with ⟨r1, e⟩
    rw [h1] at h
    cases e with
    | error e => dsimp only at h; cases h
    | ok px =>
      dsimp only at h
      rcases h2 : readPixels r1 c n with ⟨r2, e2⟩
      rw [h2] at h
      cases e2 with
      | error e => dsimp only at h; cases h
      | ok rest =>
        dsimp only at h
        cases h
        simp [ih _ _ _ _ h2]

/-- Pixel decoding with an unrecognized code and at least one pixel to decode
fails immediately, consuming nothing. -/
theorem readPixels_unknown {c : ℕ} (hc : ¬ recognizedPixel c) (r : Reader) (n : ℕ) :
    readPixels r c (n + 1) =
      (r, .error (.UnknownPixel ("Unknown pixel type (" ++ toString c ++ ")."))) := by
  simp only [readPixels, convert_pixel_unknown r hc]

/-! Lemmas on the tile scan order and `adjust_pixels`. -/

/-- The incrementing `while` loop visits exactly `[h, min stop bound)` when
given `stop - h` steps of fuel. -/
theorem whileLoop_eq_range' (bound : ℕ) :
    ∀ (fuel h stop : ℕ), h + fuel = stop →
      whileLoop stop bound h fuel = List.range' h (min stop bound - h) := by
  intro fuel
  induction fuel with
  | zero =>
    intro h stop hst
    rw [show min stop bound - h = 0 by omega]
    rfl
  | succ fuel ih =>
    intro h stop hst
    show (if h ≠ stop ∧ h < bound then h :: whileLoop stop bound (h + 1) fuel else []) = _
    by_cases hb : h < bound
    · rw [if_pos ⟨by omega, hb⟩, ih (h + 1) stop (by omega)]
      rw [show min stop bound - h = (min stop bound - (h + 1)) + 1 by omega,
        List.range'_succ]
    · rw [if_neg (by tauto), show min stop bound - h = 0 by omega]
      rfl

/-- The source's `while`-loop tile scan equals the spec's block-scan order. -/
theorem tileCoords_eq_specBlockScan (width height : ℕ) :
    tileCoords width height = specBlockScan width height := by
  unfold tileCoords specBlockScan
  dsimp only
  apply congrArg
  funext th
  apply congrArg
  funext tw
  rw [whileLoop_eq_range' height 32 (th * 32) ((th + 1) * 32) (by omega),
    whileLoop_eq_range' width 32 (tw * 32) ((tw + 1) * 32) (by omega)]

theorem sum_map_mul_right (c : ℕ) (f : ℕ → ℕ) :
    ∀ (l : List ℕ), (l.map fun i => f i * c).sum = (l.map f).sum * c := by
  intro l
  induction l with
  | nil => simp
  | cons a l ih => simp [ih, Nat.add_mul]

/-- Telescoping sum of clipped tile spans: `m` tiles of 32 clipped at `w`
cover `min (m * 32) w` cells. -/
theorem sum_clip (w : ℕ) : ∀ (m : ℕ),
    ((List.range m).map fun i => min ((i + 1) * 32) w - i * 32).sum = min (m * 32) w := by
  intro m
  induction m with
  | zero => simp
  | succ m ih =>
    rw [List.range_succ, List.map_append, List.sum_append]
    simp only [List.map_cons, List.map_nil, List.sum_cons, List.sum_nil, ih]
    omega

theorem length_whileRow (th bound : ℕ) :
    (whileLoop ((th + 1) * 32) bound (th * 32) 32).length =
      min ((th + 1) * 32) bound - th * 32 := by
  rw [whileLoop_eq_range' bound 32 (th * 32) ((th + 1) * 32) (by omega),
    List.length_range']

/-- The tile scan visits exactly `height * width` coordinates. -/
theorem tileCoords_length (width height : ℕ) :
    (tileCoords width height).length = height * width := by
  unfold tileCoords
  dsimp only
  rw [List.length_flatMap]
  have hinner : ∀ th : ℕ,
      ((List.range ((width + 32 - 1) / 32)).flatMap fun tw =>
        (whileLoop ((th + 1) * 32) height (th * 32) 32).flatMap fun h =>
          (whileLoop ((tw + 1) * 32) width (tw * 32) 32).map fun w =>
            ((w, h) : ℕ × ℕ)).length =
      (min ((th + 1) * 32) height - th * 32) * width := by
    intro th
    rw [List.length_flatMap]
    have htile : ∀ tw : ℕ,
        ((whileLoop ((th + 1) * 32) height (th * 32) 32).flatMap fun h =>
          (whileLoop ((tw + 1) * 32) width (tw * 32) 32).map fun w =>
            ((w, h) : ℕ × ℕ)).length =
        (min ((th + 1) * 32) height - th * 32) * (min ((tw + 1) * 32) width - tw * 32) := by
      intro tw
      rw [List.length_flatMap]
      have : (List.map (List.length ∘ fun h =>
          (whileLoop ((tw + 1) * 32) width (tw * 32) 32).map fun w => ((w, h) : ℕ × ℕ))
            (whileLoop ((th + 1) * 32) height (th * 32) 32)) =
          List.map (fun _ => min ((tw + 1) * 32) width - tw * 32)
            (whileLoop ((th + 1) * 32) height (th * 32) 32) := by
        apply List.map_congr_left
        intro h _
        simp [Function.comp, List.length_map, length_whileRow]
      rw [this]
      have hconst : ∀ (l : List ℕ) (c : ℕ), (l.map fun _ => c).sum = l.length * c := by
        intro l c
        induction l with
        | nil => simp
        | cons a l ih => simp [ih, Nat.succ_mul, Nat.add_comm]
      rw [hconst, length_whileRow]
    have : (List.map (List.length ∘ fun tw =>
        (whileLoop ((th + 1) * 32) height (th * 32) 32).flatMap fun h =>
          (whileLoop ((tw + 1) * 32) width (tw * 32) 32).map fun w => ((w, h) : ℕ × ℕ))
          (List.range ((width + 32 - 1) / 32))) =
        List.map (fun tw => (min ((th + 1) * 32) height - th * 32) *
          (min ((tw + 1) * 32) width - tw * 32)) (List.range ((width + 32 - 1) / 32)) := by
      apply List.map_congr_left
      intro tw _
      simp only [Function.comp]
      exact htile tw
    rw [this]
    have hfac := sum_map_mul_right (min ((th + 1) * 32) height - th * 32)
      (fun tw => min ((tw + 1) * 32) width - tw * 32) (List.range ((width + 32 - 1) / 32))
    simp only [Nat.mul_comm (min ((th + 1) * 32) height - th * 32)] at *
    rw [hfac, sum_clip]
    have hcover : min ((width + 32 - 1) / 32 * 32) width = width := by omega
    rw [hcover, Nat.mul_comm]
  have : (List.map (List.length ∘ fun th =>
      (List.range ((width + 32 - 1) / 32)).flatMap fun tw =>
        (whileLoop ((th + 1) * 32) height (th * 32) 32).flatMap fun h =>
          (whileLoop ((tw + 1) * 32) width (tw * 32) 32).map fun w => ((w, h) : ℕ × ℕ))
        (List.range ((height + 32 - 1) / 32))) =
      List.map (fun th => (min ((th + 1) * 32) height - th * 32) * width)
        (List.range ((height + 32 - 1) / 32)) := by
    apply List.map_congr_left
    intro th _
    simp only [Function.comp]
    exact hinner th
  rw [this, sum_map_mul_right width (fun th => min ((th + 1) * 32) height - th * 32)
    (List.range ((height + 32 - 1) / 32)), sum_clip]
  rw [show min ((height + 32 - 1) / 32 * 32) height = height by omega]

/-- Every in-range coordinate is visited by the block scan. -/
theorem mem_specBlockScan {width height x y : ℕ} (hx : x < width) (hy : y < height) :
    (x, y) ∈ specBlockScan width height := by
  unfold specBlockScan
  rw [List.mem_flatMap]
  refine ⟨y / 32, by rw [List.mem_range]; omega, ?_⟩
  rw [List.mem_flatMap]
  refine ⟨x / 32, by rw [List.mem_range]; omega, ?_⟩
  rw [List.mem_flatMap]
  refine ⟨y, ?_, ?_⟩
  · rw [List.mem_range'_1]
    constructor <;> omega
  · rw [List.mem_map]
    refine ⟨x, ?_, rfl⟩
    rw [List.mem_range'_1]
    constructor <;> omega

/-- Coordinates not written by a write sequence keep their value. -/
theorem writeSeq_notMem : ∀ (l : List ((ℕ × ℕ) × Pixel)) (img : Grid) (p : ℕ × ℕ),
    p ∉ l.map Prod.fst → writeSeq img l p = img p := by
  intro l
  induction l with
  | nil => intro img p _; rfl
  | cons cp l ih =>
    intro img p hp
    rcases cp with ⟨c, px⟩
    simp only [List.map_cons, List.mem_cons] at hp
    push_neg at hp
    show writeSeq (putPixel img c.1 c.2 px) l p = img p
    rw [ih _ _ hp.2]
    unfold putPixel
    rw [if_neg (by rw [Prod.mk.eta]; exact hp.1)]

/-- Writing pairs drawn from the graph of `grid` reproduces `grid` at every
written coordinate. -/
theorem writeSeq_graph (grid : Grid) : ∀ (l : List ((ℕ × ℕ) × Pixel)) (img : Grid)
    (p : ℕ × ℕ), (∀ q ∈ l, q.2 = grid q.1) → p ∈ l.map Prod.fst →
    writeSeq img l p = grid p := by
  intro l
  induction l with
  | nil => intro img p _ hp; cases hp
  | cons cp l ih =>
    intro img p hg hp
    rcases cp with ⟨c, px⟩
    have hpx : px = grid c := hg (c, px) (List.mem_cons_self _ _)
    show writeSeq (putPixel img c.1 c.2 px) l p = grid p
    by_cases hmem : p ∈ l.map Prod.fst
    · exact ih _ p (fun q hq => hg q (List.mem_cons_of_mem _ hq)) hmem
    · simp only [List.map_cons, List.mem_cons] at hp
      rcases hp with hp | hp
      · rw [writeSeq_notMem l _ p hmem]
        unfold putPixel
        rw [if_pos (by rw [Prod.mk.eta]; exact hp), hpx, hp]
      · exact absurd hp hmem

/-- The index-checked write loop of `adjust_pixels` on sufficiently many
pixels: no out-of-bounds panic, and the result is the sequential write of
the coordinates zipped with the pixels from index `i` on. -/
theorem writeIdx_eq : ∀ (coords : List (ℕ × ℕ)) (img : Grid) (pixels : List Pixel)
    (i : ℕ), i + coords.length ≤ pixels.length →
    writeIdx img pixels coords i =
      some (writeSeq img (coords.zip (pixels.drop i)), i + coords.length) := by
  intro coords
  induction coords with
  | nil =>
    intro img pixels i _
    simp [writeIdx, writeSeq]
  | cons c cs ih =>
    intro img pixels i h
    simp only [List.length_cons] at h
    have hi : i < pixels.length := by omega
    simp only [writeIdx, dif_pos hi]
    rw [ih _ _ (i + 1) (by omega)]
    rw [List.drop_eq_getElem_cons hi]
    show _ = some (writeSeq (putPixel img c.1 c.2 (pixels.get ⟨i, hi⟩)) (cs.zip (pixels.drop (i + 1))), i + (cs.length + 1))
    rw [show i + 1 + cs.length = i + (cs.length + 1) by omega]

/-- The function `adjust_pixels` succeeds whenever the pixel sequence covers the tile
scan, and produces the sequential tile-order writes. -/
theorem adjust_pixels_eq {pixels : List Pixel} {width height : ℕ} (img : Grid)
    (h : (tileCoords width height).length ≤ pixels.length) :
    adjust_pixels img pixels height width =
      some (writeSeq img ((tileCoords width height).zip pixels)) := by
  unfold adjust_pixels
  rw [writeIdx_eq _ _ _ 0 (by omega)]
  simp

/-! Lemmas on the chunk loop. -/

/-- The result of the chunk loop does not depend on the fuel, as long as the
fuel exceeds the tracked `bytes_left` (which strictly decreases every
iteration). -/
theorem processLoopF_irrel : ∀ (f g : ℕ) (r : Reader) (pic : ℕ),
    r.bytesLeft < f → r.bytesLeft < g →
    processLoopF f r pic = processLoopF g r pic := by
  intro f
  induction f with
  | zero => intro g r pic hf _; omega
  | succ f ih =>
    intro g r pic hf hg
    cases g with
    | zero => omega
    | succ g =>
      by_cases hlen : r.len = 0
      · simp only [processLoopF]
        unfold processIter
        rw [if_pos hlen, if_pos hlen]
      · have hpos : 0 < r.bytesLeft := by
          unfold Reader.len at hlen; omega
        rcases hB : r.readByte with ⟨fileType, r1⟩
        have hr1b : r1.bytesLeft = r.bytesLeft - 1 := by
          have := Reader.readByte_strict r hpos
          rw [hB] at this; exact this
        rcases hU : r1.readUint32 with ⟨fs, r2⟩
        have hr2b : r2.bytesLeft ≤ r1.bytesLeft := by
          have := (Reader.readUint32_spec r1).2.1
          rw [hU] at this; exact this
        simp only [processLoopF]
        unfold processIter
        rw [if_neg hlen, if_neg hlen, hB]
        dsimp only
        rw [hU]
        dsimp only
        by_cases hft : ¬ (fileType = 1 ∨ fileType = 24 ∨ fileType = 27 ∨ fileType = 28)
        · rw [if_pos hft, if_pos hft]
          rcases hR : r2.read fs with ⟨junk, r3⟩
          have hr3b : r3.bytesLeft ≤ r2.bytesLeft := by
            have := (Reader.read_spec r2 fs).2.1
            rw [hR] at this; exact this
          dsimp only
          exact ih g r3 pic (by omega) (by omega)
        · rw [if_neg hft, if_neg hft]
          rcases hS : r2.readByte with ⟨subType, r3⟩
          have hr3b : r3.bytesLeft ≤ r2.bytesLeft := by
            have := (Reader.readByte_spec r2).2.1
            rw [hS] at this; exact this
          dsimp only
          rcases hW : r3.readUint16 with ⟨width, r4⟩
          have hr4b : r4.bytesLeft ≤ r3.bytesLeft := by
            have := (Reader.readUint16_spec r3).2.1
            rw [hW] at this; exact this
          dsimp only
          rcases hH : r4.readUint16 with ⟨height, r5⟩
          have hr5b : r5.bytesLeft ≤ r4.bytesLeft := by
            have := (Reader.readUint16_spec r4).2.1
            rw [hH] at this; exact this
          dsimp only
          rcases hP : readPixels r5 subType (width * height) with ⟨r6, e⟩
          have hr6b : r6.bytesLeft ≤ r5.bytesLeft := by
            have := (readPixels_mono (width * height) r5 subType).2
            rw [hP] at this; exact this
          dsimp only
          cases e with
          | error e => exact ih g r6 pic (by omega) (by omega)
          | ok pixels =>
            dsimp only
            rw [ih g r6 (pic + 1) (by omega) (by omega)]

/-- Sufficient fuel rules out fuel exhaustion, and a successful pixel pass
always feeds `adjust_pixels` exactly `width * height` samples, so the loop
never reaches an out-of-bounds `pixels[i]`: it cannot return `none`. -/
theorem processLoopF_ne_none : ∀ (f : ℕ) (r : Reader) (pic : ℕ),
    r.bytesLeft < f → processLoopF f r pic ≠ none := by
  intro f
  induction f with
  | zero => intro r pic hf; omega
  | succ f ih =>
    intro r pic hf
    by_cases hlen : r.len = 0
    · simp only [processLoopF]
      unfold processIter
      rw [if_pos hlen]
      exact Option.some_ne_none _
    · have hpos : 0 < r.bytesLeft := by
        unfold Reader.len at hlen; omega
      rcases hB : r.readByte with ⟨fileType, r1⟩
      have hr1b : r1.bytesLeft = r.bytesLeft - 1 := by
        have := Reader.readByte_strict r hpos
        rw [hB] at this; exact this
      rcases hU : r1.readUint32 with ⟨fs, r2⟩
      have hr2b : r2.bytesLeft ≤ r1.bytesLeft := by
        have := (Reader.readUint32_spec r1).2.1
        rw [hU] at this; exact this
      simp only [processLoopF]
      unfold processIter
      rw [if_neg hlen, hB]
      dsimp only
      rw [hU]
      dsimp only
      by_cases hft : ¬ (fileType = 1 ∨ fileType = 24 ∨ fileType = 27 ∨ fileType = 28)
      · rw [if_pos hft]
        rcases hR : r2.read fs with ⟨junk, r3⟩
        have hr3b : r3.bytesLeft ≤ r2.bytesLeft := by
          have := (Reader.read_spec r2 fs).2.1
          rw [hR] at this; exact this
        dsimp only
        exact ih r3 pic (by omega)
      · rw [if_neg hft]
        rcases hS : r2.readByte with ⟨subType, r3⟩
        have hr3b : r3.bytesLeft ≤ r2.bytesLeft := by
          have := (Reader.readByte_spec r2).2.1
          rw [hS] at this; exact this
        dsimp only
        rcases hW : r3.readUint16 with ⟨width, r4⟩
        have hr4b : r4.bytesLeft ≤ r3.bytesLeft := by
          have := (Reader.readUint16_spec r3).2.1
          rw [hW] at this; exact this
        dsimp only
        rcases hH : r4.readUint16 with ⟨height, r5⟩
        have hr5b : r5.bytesLeft ≤ r4.bytesLeft := by
          have := (Reader.readUint16_spec r4).2.1
          rw [hH] at this; exact this
        dsimp only
        rcases hP : readPixels r5 subType (width * height) with ⟨r6, e⟩
        have hr6b : r6.bytesLeft ≤ r5.bytesLeft := by
          have := (readPixels_mono (width * height) r5 subType).2
          rw [hP] at this; exact this
        dsimp only
        cases e with
        | error e => exact ih r6 pic (by omega)
        | ok pixels =>
          dsimp only
          have hplen : pixels.length = width * height :=
            readPixels_len (width * height) r5 r6 subType pixels hP
          have hbound : (tileCoords width height).length ≤ pixels.length := by
            rw [tileCoords_length, hplen]
            exact Nat.le_of_eq (Nat.mul_comm height width)
          have hrec := ih r6 (pic + 1) (by omega)
          by_cases h2728 : fileType = 27 ∨ fileType = 28
          · rw [if_pos h2728, adjust_pixels_eq (rasterImg pixels width height) hbound]
            dsimp only
            rcases h6 : processLoopF f r6 (pic + 1) with _ | sprites
            · exact absurd h6 hrec
            · simp
          · rw [if_neg h2728]
            dsimp only
            rcases h6 : processLoopF f r6 (pic + 1) with _ | sprites
            · exact absurd h6 hrec
            · simp
theorem chunkBytes_flat (t sz s w h : ℕ) (p : List ℕ) :
    chunkBytes t sz s w h p =
      t :: sz % 256 :: sz / 256 % 256 :: sz / 65536 % 256 :: sz / 16777216 % 256 ::
        s :: w % 256 :: w / 256 % 256 :: h % 256 :: h / 256 % 256 :: p := by
  simp [chunkBytes, u32le, u16le]

theorem chunkBytes_length (t sz s w h : ℕ) (p : List ℕ) :
    (chunkBytes t sz s w h p).length = 10 + p.length := by
  rw [chunkBytes_flat]
  simp
  omega

/-- The loop on an exhausted reader emits nothing. -/
theorem processLoopF_nil (f : ℕ) (r : Reader) (pic : ℕ) (h : r.bytesLeft = 0) :
    processLoopF (f + 1) r pic = some [] := by
  simp only [processLoopF]
  unfold processIter
  rw [if_pos (show r.len = 0 from h)]

/-- One iteration on a well-formed image chunk (recognized type and pixel
code, payload of exactly `width * height * bpp` bytes): a sprite carrying
the chunk's header fields and the current `pic_count` is emitted and the
loop resumes right after the payload with `pic_count + 1`. -/
theorem processLoopF_chunk (f : ℕ) (r : Reader) (pic : ℕ)
    (t sz s w h : ℕ) (payload rest : List ℕ)
    (hal : r.Aligned)
    (hrem : r.remStream = chunkBytes t sz s w h payload ++ rest)
    (ht : t = 1 ∨ t = 24 ∨ t = 27 ∨ t = 28)
    (hs : recognizedPixel s)
    (hw : w < 65536) (hh : h < 65536)
    (hp : payload.length = w * h * bpp s) :
    ∃ (pixels : List Pixel) (img : Grid), pixels.length = w * h ∧
      processLoopF (f + 1) r pic =
        (processLoopF f (r.adv (10 + payload.length)) (pic + 1)).map
          (fun l => ⟨t, s, w, h, pixels, pic, img⟩ :: l) := by
  have hflat : r.remStream = t :: sz % 256 :: sz / 256 % 256 :: sz / 65536 % 256 ::
      sz / 16777216 % 256 :: s :: w % 256 :: w / 256 % 256 :: h % 256 ::
      h / 256 % 256 :: (payload ++ rest) := by
    rw [hrem, chunkBytes_flat]
    rfl
  have hbl : r.bytesLeft = r.remStream.length := by
    rw [Reader.length_remStream]; exact hal.2
  have hblv : r.bytesLeft = 10 + (payload.length + rest.length) := by
    rw [hbl, hflat]; simp; omega
  have hlen0 : ¬ (r.len = 0) := by unfold Reader.len; omega
  have hB := Reader.readByte_cons hal hflat
  have hal1 : (r.adv 1).Aligned := Reader.adv_aligned hal (by omega)
  have hrem1 : (r.adv 1).remStream = sz % 256 :: sz / 256 % 256 :: sz / 65536 % 256 ::
      sz / 16777216 % 256 :: s :: w % 256 :: w / 256 % 256 :: h % 256 ::
      h / 256 % 256 :: (payload ++ rest) := by
    rw [Reader.remStream_adv, hflat]
    rfl
  have hU := Reader.readUint32_cons hal1 hrem1
  rw [Reader.adv_adv] at hU
  have hal5 : (r.adv 5).Aligned := Reader.adv_aligned hal (by omega)
  have hrem5 : (r.adv 5).remStream = s :: w % 256 :: w / 256 % 256 :: h % 256 ::
      h / 256 % 256 :: (payload ++ rest) := by
    rw [Reader.remStream_adv, hflat]
    rfl
  have hS := Reader.readByte_cons hal5 hrem5
  rw [Reader.adv_adv] at hS
  have hal6 : (r.adv 6).Aligned := Reader.adv_aligned hal (by omega)
  have hrem6 : (r.adv 6).remStream = w % 256 :: w / 256 % 256 :: h % 256 ::
      h / 256 % 256 :: (payload ++ rest) := by
    rw [Reader.remStream_adv, hflat]
    rfl
  have hW := Reader.readUint16_cons hal6 hrem6
  rw [Reader.adv_adv, show w % 256 + 256 * (w / 256 % 256) = w by omega] at hW
  have hal8 : (r.adv 8).Aligned := Reader.adv_aligned hal (by omega)
  have hrem8 : (r.adv 8).remStream = h % 256 :: h / 256 % 256 :: (payload ++ rest) := by
    rw [Reader.remStream_adv, hflat]
    rfl
  have hH := Reader.readUint16_cons hal8 hrem8
  rw [Reader.adv_adv, show h % 256 + 256 * (h / 256 % 256) = h by omega] at hH
  have hal10 : (r.adv 10).Aligned := Reader.adv_aligned hal (by omega)
  have hbl10 : (r.adv 10).bytesLeft = payload.length + rest.length := by
    simp only [Reader.adv]; omega
  obtain ⟨pixels, hP, hplen⟩ := readPixels_consume hs (w * h) (r.adv 10) hal10
    (by rw [hbl10, ← hp]; omega)
  rw [Reader.adv_adv, show 10 + w * h * bpp s = 10 + payload.length by omega] at hP
  refine ⟨pixels, ?_⟩
  simp only [processLoopF]
  unfold processIter
  rw [if_neg hlen0, hB]
  dsimp only
  rw [hU]
  dsimp only
  rw [if_neg (show ¬ ¬ (t = 1 ∨ t = 24 ∨ t = 27 ∨ t = 28) from not_not_intro ht)]
  rw [hS]
  dsimp only
  rw [hW]
  dsimp only
  rw [hH]
  dsimp only
  rw [hP]
  dsimp only
  obtain ⟨img, himg⟩ : ∃ img,
      (if t = 27 ∨ t = 28 then
        adjust_pixels (rasterImg pixels w h) pixels h w
      else some (rasterImg pixels w h)) = some img := by
    by_cases h27 : t = 27 ∨ t = 28
    · rw [if_pos h27, adjust_pixels_eq _
        (by rw [tileCoords_length, hplen]; exact Nat.le_of_eq (Nat.mul_comm h w))]
      exact ⟨_, rfl⟩
    · rw [if_neg h27]
      exact ⟨_, rfl⟩
  rw [himg]
  dsimp only
  exact ⟨img, hplen, rfl⟩

/-- One iteration on an image chunk whose sub-type is unrecognized and whose
header declares at least one pixel: the chunk is abandoned by `continue`
with only its 10 header bytes consumed, `pic_count` unchanged. -/
theorem processLoopF_failChunk (f : ℕ) (r : Reader) (pic : ℕ)
    (t sz s w h : ℕ) (rest : List ℕ)
    (hal : r.Aligned)
    (hrem : r.remStream = chunkBytes t sz s w h [] ++ rest)
    (ht : t = 1 ∨ t = 24 ∨ t = 27 ∨ t = 28)
    (hs : ¬ recognizedPixel s)
    (hw : w < 65536) (hh : h < 65536)
    (hwh : 0 < w * h) :
    processLoopF (f + 1) r pic = processLoopF f (r.adv 10) pic := by
  have hflat : r.remStream = t :: sz % 256 :: sz / 256 % 256 :: sz / 65536 % 256 ::
      sz / 16777216 % 256 :: s :: w % 256 :: w / 256 % 256 :: h % 256 ::
      h / 256 % 256 :: rest := by
    rw [hrem, chunkBytes_flat]
    rfl
  have hbl : r.bytesLeft = r.remStream.length := by
    rw [Reader.length_remStream]; exact hal.2
  have hblv : r.bytesLeft = 10 + rest.length := by
    rw [hbl, hflat]; simp; omega
  have hlen0 : ¬ (r.len = 0) := by unfold Reader.len; omega
  have hB := Reader.readByte_cons hal hflat
  have hal1 : (r.adv 1).Aligned := Reader.adv_aligned hal (by omega)
  have hrem1 : (r.adv 1).remStream = sz % 256 :: sz / 256 % 256 :: sz / 65536 % 256 ::
      sz / 16777216 % 256 :: s :: w % 256 :: w / 256 % 256 :: h % 256 ::
      h / 256 % 256 :: rest := by
    rw [Reader.remStream_adv, hflat]
    rfl
  have hU := Reader.readUint32_cons hal1 hrem1
  rw [Reader.adv_adv] at hU
  have hal5 : (r.adv 5).Aligned := Reader.adv_aligned hal (by omega)
  have hrem5 : (r.adv 5).remStream = s :: w % 256 :: w / 256 % 256 :: h % 256 ::
      h / 256 % 256 :: rest := by
    rw [Reader.remStream_adv, hflat]
    rfl
  have hS := Reader.readByte_cons hal5 hrem5
  rw [Reader.adv_adv] at hS
  have hal6 : (r.adv 6).Aligned := Reader.adv_aligned hal (by omega)
  have hrem6 : (r.adv 6).remStream = w % 256 :: w / 256 % 256 :: h % 256 ::
      h / 256 % 256 :: rest := by
    rw [Reader.remStream_adv, hflat]
    rfl
  have hW := Reader.readUint16_cons hal6 hrem6
  rw [Reader.adv_adv, show w % 256 + 256 * (w / 256 % 256) = w by omega] at hW
  have hal8 : (r.adv 8).Aligned := Reader.adv_aligned hal (by omega)
  have hrem8 : (r.adv 8).remStream = h % 256 :: h / 256 % 256 :: rest := by
    rw [Reader.remStream_adv, hflat]
    rfl
  have hH := Reader.readUint16_cons hal8 hrem8
  rw [Reader.adv_adv, show h % 256 + 256 * (h / 256 % 256) = h by omega] at hH
  obtain ⟨m, hm⟩ : ∃ m, w * h = m + 1 := ⟨w * h - 1, by omega⟩
  have hP : readPixels (r.adv 10) s (w * h) = ((r.adv 10),
      .error (.UnknownPixel ("Unknown pixel type (" ++ toString s ++ ")."))) := by
    rw [hm]
    exact readPixels_unknown hs (r.adv 10) m
  simp only [processLoopF]
  unfold processIter
  rw [if_neg hlen0, hB]
  dsimp only
  rw [hU]
  dsimp only
  rw [if_neg (show ¬ ¬ (t = 1 ∨ t = 24 ∨ t = 27 ∨ t = 28) from not_not_intro ht)]
  rw [hS]
  dsimp only
  rw [hW]
  dsimp only
  rw [hH]
  dsimp only
  rw [hP]

theorem remStream_new (data : List ℕ) : (Reader.new data).remStream = data := rfl

theorem adv_bytesLeft (r : Reader) (n : ℕ) :
    (r.adv n).bytesLeft = r.bytesLeft - n := rfl

/-- Canonical-fuel version of `processLoopF_nil`. -/
theorem processLoop_nil (r : Reader) (pic : ℕ) (h : r.bytesLeft = 0) :
    processLoop r pic = some [] := by
  unfold processLoop
  rw [h]
  exact processLoopF_nil 0 r pic h

/-- Canonical-fuel version of `processLoopF_chunk`. -/
theorem processLoop_chunk (r : Reader) (pic : ℕ)
    (t sz s w h : ℕ) (payload rest : List ℕ)
    (hal : r.Aligned)
    (hrem : r.remStream = chunkBytes t sz s w h payload ++ rest)
    (ht : t = 1 ∨ t = 24 ∨ t = 27 ∨ t = 28)
    (hs : recognizedPixel s)
    (hw : w < 65536) (hh : h < 65536)
    (hp : payload.length = w * h * bpp s) :
    ∃ (pixels : List Pixel) (img : Grid), pixels.length = w * h ∧
      processLoop r pic =
        (processLoop (r.adv (10 + payload.length)) (pic + 1)).map
          (fun l => ⟨t, s, w, h, pixels, pic, img⟩ :: l) := by
  have hbl : r.bytesLeft = r.remStream.length := by
    rw [Reader.length_remStream]; exact hal.2
  have hblv : r.bytesLeft = 10 + payload.length + rest.length := by
    rw [hbl, hrem]
    simp [chunkBytes_length]
  obtain ⟨pixels, img, hplen, heq⟩ := processLoopF_chunk r.bytesLeft r pic
    t sz s w h payload rest hal hrem ht hs hw hh hp
  refine ⟨pixels, img, hplen, ?_⟩
  unfold processLoop
  rw [heq]
  congr 1
  apply processLoopF_irrel
  · rw [adv_bytesLeft]; omega
  · rw [adv_bytesLeft]; omega

/-- Canonical-fuel version of `processLoopF_failChunk`. -/
theorem processLoop_failChunk (r : Reader) (pic : ℕ)
    (t sz s w h : ℕ) (rest : List ℕ)
    (hal : r.Aligned)
    (hrem : r.remStream = chunkBytes t sz s w h [] ++ rest)
    (ht : t = 1 ∨ t = 24 ∨ t = 27 ∨ t = 28)
    (hs : ¬ recognizedPixel s)
    (hw : w < 65536) (hh : h < 65536)
    (hwh : 0 < w * h) :
    processLoop r pic = processLoop (r.adv 10) pic := by
  have hbl : r.bytesLeft = r.remStream.length := by
    rw [Reader.length_remStream]; exact hal.2
  have hblv : r.bytesLeft = 10 + rest.length := by
    rw [hbl, hrem]
    simp [chunkBytes_length]
  unfold processLoop
  rw [processLoopF_failChunk r.bytesLeft r pic t sz s w h rest hal hrem ht hs hw hh hwh]
  apply processLoopF_irrel
  · rw [adv_bytesLeft]; omega
  · rw [adv_bytesLeft]; omega

/-! Value agreement between `convert_pixel` and the spec's pixel table. -/

theorem and_shl_le (x m k : ℕ) : (x &&& m) <<< k ≤ m <<< k := by
  rw [Nat.shiftLeft_eq, Nat.shiftLeft_eq]
  exact Nat.mul_le_mul_right _ Nat.and_le_right

/-- The `as u8` truncation of the source's type-3 alpha expression equals the
spec's `low bit × 128`. -/
theorem alpha_bit (v : ℕ) : ((v &&& 255) <<< 7) % 256 = (v &&& 1) * 128 := by
  have h255 : v &&& 255 = v % 256 := by
    have := Nat.and_pow_two_sub_one_eq_mod v 8
    norm_num at this
    exact this
  have h1 : v &&& 1 = v % 2 := Nat.and_one_is_mod v
  rw [Nat.shiftLeft_eq, h255, h1]
  norm_num
  omega

theorem mem_remStream_lt {r : Reader} (hwf : ∀ b ∈ r.data, b < 256) {b : ℕ}
    (hb : b ∈ r.remStream) : b < 256 :=
  hwf b (List.mem_of_mem_drop hb)

theorem remStream_two {r : Reader} (hal : r.Aligned) (h2 : 2 ≤ r.bytesLeft) :
    ∃ b0 b1 l, r.remStream = b0 :: b1 :: l := by
  have hb := hal.2
  have hlen2 : 2 ≤ r.remStream.length := by
    rw [Reader.length_remStream]; omega
  rcases hS : r.remStream with _ | ⟨b0, _ | ⟨b1, l⟩⟩
  · rw [hS] at hlen2; simp at hlen2
  · rw [hS] at hlen2; simp at hlen2
  · exact ⟨b0, b1, l, rfl⟩

theorem mod256_and_shl {x m k : ℕ} (h : m <<< k < 256) :
    ((x &&& m) <<< k) % 256 = (x &&& m) <<< k :=
  Nat.mod_eq_of_lt (Nat.lt_of_le_of_lt (and_shl_le x m k) h)

/-- C1 — corrected.  `convert_pixel` consumes exactly the byte width of the
recognized sub-format code and returns the bit-exact RGBA sample of the
spec's §4.4 table applied to the consumed bytes, on an aligned cursor over a
well-formed byte buffer holding at least that byte width — strictly more
than 4 bytes for codes 0 and 1, where `Reader::read`'s end-of-buffer
behaviour returns a zero-prefixed buffer and corrupts the sample (see the
counterexample). -/
theorem c1_convert_pixel_table (r : Reader) (c : ℕ)
    (hwf : ∀ b ∈ r.data, b < 256)
    (hal : r.Aligned) (hc : recognizedPixel c)
    (hbl : bpp c ≤ r.bytesLeft)
    (hstrict : c = 0 ∨ c = 1 → 4 < r.bytesLeft) :
    convert_pixel r c =
      (r.adv (bpp c), Except.ok (specPixelTable c (r.remStream.take (bpp c)))) := by
  rcases hc with h | h | h | h | h | h | h <;> subst h
  · have h4 : 4 < r.bytesLeft := hstrict (Or.inl rfl)
    have hre := Reader.read_exact hal h4
    show ((r.read 4).2, Except.ok (⟨(r.read 4).1.getD 0 0, (r.read 4).1.getD 1 0,
      (r.read 4).1.getD 2 0, (r.read 4).1.getD 3 0⟩ : Pixel)) = _
    rw [hre]
    rfl
  · have h4 : 4 < r.bytesLeft := hstrict (Or.inr rfl)
    have hre := Reader.read_exact hal h4
    show ((r.read 4).2, Except.ok (⟨(r.read 4).1.getD 0 0, (r.read 4).1.getD 1 0,
      (r.read 4).1.getD 2 0, (r.read 4).1.getD 3 0⟩ : Pixel)) = _
    rw [hre]
    rfl
  · obtain ⟨b0, b1, l, hsh⟩ := remStream_two hal (by simpa [bpp] using hbl)
    have hu := Reader.readUint16_cons hal hsh
    show ((r.readUint16).2, Except.ok (⟨((((r.readUint16).1 >>> 12) &&& 0xF) <<< 4) % 256,
      ((((r.readUint16).1 >>> 8) &&& 0xF) <<< 4) % 256,
      ((((r.readUint16).1 >>> 4) &&& 0xF) <<< 4) % 256,
      (((r.readUint16).1 &&& 0xF) <<< 4) % 256⟩ : Pixel)) = _
    rw [hu, hsh]
    dsimp only
    rw [mod256_and_shl (by decide), mod256_and_shl (by decide),
      mod256_and_shl (by decide), mod256_and_shl (by decide)]
    rfl
  · obtain ⟨b0, b1, l, hsh⟩ := remStream_two hal (by simpa [bpp] using hbl)
    have hu := Reader.readUint16_cons hal hsh
    show ((r.readUint16).2, Except.ok (⟨((((r.readUint16).1 >>> 11) &&& 0x1F) <<< 3) % 256,
      ((((r.readUint16).1 >>> 6) &&& 0x1F) <<< 3) % 256,
      ((((r.readUint16).1 >>> 1) &&& 0x1F) <<< 3) % 256,
      (((r.readUint16).1 &&& 0xFF) <<< 7) % 256⟩ : Pixel)) = _
    rw [hu, hsh]
    dsimp only
    rw [mod256_and_shl (by decide), mod256_and_shl (by decide),
      mod256_and_shl (by decide), alpha_bit]
    rfl
  · obtain ⟨b0, b1, l, hsh⟩ := remStream_two hal (by simpa [bpp] using hbl)
    have hu := Reader.readUint16_cons hal hsh
    show ((r.readUint16).2, Except.ok (⟨((((r.readUint16).1 >>> 11) &&& 0x1F) <<< 3) % 256,
      ((((r.readUint16).1 >>> 5) &&& 0x3F) <<< 2) % 256,
      (((r.readUint16).1 &&& 0x1F) <<< 3) % 256, 255⟩ : Pixel)) = _
    rw [hu, hsh]
    dsimp only
    rw [mod256_and_shl (by decide), mod256_and_shl (by decide),
      mod256_and_shl (by decide)]
    rfl
  · obtain ⟨b0, b1, l, hsh⟩ := remStream_two hal (by simpa [bpp] using hbl)
    have hb0 : b0 < 256 := mem_remStream_lt hwf (by rw [hsh]; simp)
    have hb1 : b1 < 256 := mem_remStream_lt hwf (by rw [hsh]; simp)
    have hu := Reader.readUint16_cons hal hsh
    show ((r.readUint16).2, Except.ok (⟨((r.readUint16).1 >>> 8) % 256,
      ((r.readUint16).1 >>> 8) % 256, ((r.readUint16).1 >>> 8) % 256,
      ((r.readUint16).1 &&& 0xFF) % 256⟩ : Pixel)) = _
    rw [hu, hsh]
    dsimp only
    have hv8 : (b0 + 256 * b1) >>> 8 % 256 = (b0 + 256 * b1) >>> 8 := by
      apply Nat.mod_eq_of_lt
      rw [Nat.shiftRight_eq_div_pow]
      norm_num
      omega
    have hv255 : ((b0 + 256 * b1) &&& 0xFF) % 256 = (b0 + 256 * b1) &&& 0xFF := by
      apply Nat.mod_eq_of_lt
      exact Nat.lt_of_le_of_lt Nat.and_le_right (by norm_num)
    rw [hv8, hv255]
    rfl
  · have h1 : 1 ≤ r.bytesLeft := by simpa [bpp] using hbl
    have hb := hal.2
    have hlen1 : 1 ≤ r.remStream.length := by
      rw [Reader.length_remStream]; omega
    rcases hS : r.remStream with _ | ⟨b0, l⟩
    · rw [hS] at hlen1; simp at hlen1
    · have hbyte := Reader.readByte_cons hal hS
      show ((r.readByte).2, Except.ok (⟨(r.readByte).1, (r.readByte).1,
        (r.readByte).1, (r.readByte).1⟩ : Pixel)) = _
      rw [hbyte]
      rfl

theorem zip_self_map {α β : Type} (f : α → β) : ∀ (l : List α),
    l.zip (l.map f) = l.map fun c => (c, f c) := by
  intro l
  induction l with
  | nil => rfl
  | cons a l ih => simp [ih]

/-- Helper for C10: every sprite the chunk loop emits is final-imaged by the
tiling branch keyed on the chunk type byte alone — `adjust_pixels` for types
27 and 28, raster order for types 1 and 24. -/
theorem processLoopF_sprites : ∀ (f : ℕ) (r : Reader) (pic : ℕ)
    (sprites : List Sprite), processLoopF f r pic = some sprites →
    ∀ s ∈ sprites,
      (s.fileType = 1 ∨ s.fileType = 24 ∨ s.fileType = 27 ∨ s.fileType = 28) ∧
      ((s.fileType = 27 ∨ s.fileType = 28) →
        adjust_pixels (rasterImg s.pixels s.width s.height) s.pixels s.height
          s.width = some s.img) ∧
      ((s.fileType = 1 ∨ s.fileType = 24) →
        s.img = rasterImg s.pixels s.width s.height) := by
  intro f
  induction f with
  | zero =>
    intro r pic sprites heq
    cases heq
  | succ f ih =>
    intro r pic sprites heq
    by_cases hlen : r.len = 0
    · simp only [processLoopF] at heq
      unfold processIter at heq
      rw [if_pos hlen] at heq
      cases heq
      intro s hs
      cases hs
    · rcases hB : r.readByte with ⟨fileType, r1⟩
      rcases hU : r1.readUint32 with ⟨fs, r2⟩
      simp only [processLoopF] at heq
      unfold processIter at heq
      rw [if_neg hlen, hB] at heq
      dsimp only at heq
      rw [hU] at heq
      dsimp only at heq
      by_cases hft : ¬ (fileType = 1 ∨ fileType = 24 ∨ fileType = 27 ∨ fileType = 28)
      · rw [if_pos hft] at heq
        exact ih _ pic sprites heq
      · rw [if_neg hft] at heq
        rcases hS : r2.readByte with ⟨subType, r3⟩
        rw [hS] at heq
        dsimp only at heq
        rcases hW : r3.readUint16 with ⟨width, r4⟩
        rw [hW] at heq
        dsimp only at heq
        rcases hH : r4.readUint16 with ⟨height, r5⟩
        rw [hH] at heq
        dsimp only at heq
        rcases hP : readPixels r5 subType (width * height) with ⟨r6, e⟩
        rw [hP] at heq
        dsimp only at heq
        cases e with
        | error e => exact ih _ pic sprites heq
        | ok pixels =>
          dsimp only at heq
          by_cases h2728 : fileType = 27 ∨ fileType = 28
          · have hplen : pixels.length = width * height :=
              readPixels_len (width * height) r5 r6 subType pixels hP
            have hbound : (tileCoords width height).length ≤ pixels.length := by
              rw [tileCoords_length, hplen]
              exact Nat.le_of_eq (Nat.mul_comm height width)
            rw [if_pos h2728,
              adjust_pixels_eq (rasterImg pixels width height) hbound] at heq
            dsimp only at heq
            rcases h6 : processLoopF f r6 (pic + 1) with _ | rest
            · rw [h6] at heq; cases heq
            · rw [h6] at heq
              cases heq
              intro s hs
              rcases List.mem_cons.mp hs with hs2 | hs2
              · subst hs2
                refine ⟨by tauto, fun _ => ?_, fun h124 => ?_⟩
                · exact (adjust_pixels_eq (rasterImg pixels width height) hbound)
                · exact absurd h124 (by rcases h2728 with h | h <;> subst h <;> simp)
              · exact ih _ _ rest h6 s hs2
          · rw [if_neg h2728] at heq
            dsimp only at heq
            rcases h6 : processLoopF f r6 (pic + 1) with _ | rest
            · rw [h6] at heq; cases heq
            · rw [h6] at heq
              cases heq
              intro s hs
              rcases List.mem_cons.mp hs with hs2 | hs2
              · subst hs2
                exact ⟨by tauto, fun h => absurd h h2728, fun _ => rfl⟩
              · exact ih _ _ rest h6 s hs2

/-! The claims. -/

/-- C3 — confirmed.  Serializing any raster grid into 32×32 block-scan order
(per the spec's scan: tiles left-to-right then top-to-bottom, rows then
columns inside a tile, clipped at the image boundary) and then applying
`adjust_pixels` recovers the original grid exactly at every in-range
coordinate, for all widths and heights, divisible by 32 or not, and from
any initial image. -/
theorem c3_tile_roundtrip (width height : ℕ) (grid img0 : Grid) (x y : ℕ)
    (hx : x < width) (hy : y < height) :
    ∃ g, adjust_pixels img0 (tileSerialize grid width height) height width = some g ∧
      g (x, y) = grid (x, y) := by
  have hser : tileSerialize grid width height = (tileCoords width height).map grid := by
    unfold tileSerialize
    rw [tileCoords_eq_specBlockScan]
  have hlen : (tileCoords width height).length ≤
      (tileSerialize grid width height).length := by
    rw [hser, List.length_map]
  rw [adjust_pixels_eq img0 hlen, hser]
  refine ⟨_, rfl, ?_⟩
  rw [zip_self_map grid (tileCoords width height)]
  apply writeSeq_graph
  · intro q hq
    rw [List.mem_map] at hq
    obtain ⟨c, _, rfl⟩ := hq
    rfl
  · rw [List.map_map]
    rw [show (Prod.fst ∘ fun c => (c, grid c)) = id from rfl, List.map_id,
      tileCoords_eq_specBlockScan]
    exact mem_specBlockScan hx hy

/-- Witness for C3 at a concrete boundary case: width 33, height 1 (the
second tile is a clipped 1×1 edge tile), recovering the pixel at `x = 32`. -/
theorem c3_tile_roundtrip_witness :
    ∃ g, adjust_pixels (fun _ => blankPixel)
        (tileSerialize (fun p => ⟨p.1, p.2, 0, 1⟩) 33 1) 1 33 = some g ∧
      g (32, 0) = (fun p => (⟨p.1, p.2, 0, 1⟩ : Pixel)) (32, 0) :=
  c3_tile_roundtrip 33 1 (fun p => ⟨p.1, p.2, 0, 1⟩) (fun _ => blankPixel) 32 0
    (by decide) (by decide)

/-- C10 — confirmed.  For every sprite emitted by the chunk loop, tile
deinterleaving is applied exactly when the chunk's type byte is 27 or 28:
those sprites' saved image is `adjust_pixels` applied over their raster
image, while types 1 and 24 keep the raster image of the decoded pixel
sequence unchanged.  The condition depends only on the type byte, never on
the `sub_type` pixel-format byte. -/
theorem c10_tiling_iff_type (r : Reader) (pic : ℕ) (sprites : List Sprite)
    (heq : processLoop r pic = some sprites) :
    ∀ s ∈ sprites,
      (s.fileType = 1 ∨ s.fileType = 24 ∨ s.fileType = 27 ∨ s.fileType = 28) ∧
      ((s.fileType = 27 ∨ s.fileType = 28) →
        adjust_pixels (rasterImg s.pixels s.width s.height) s.pixels s.height
          s.width = some s.img) ∧
      ((s.fileType = 1 ∨ s.fileType = 24) →
        s.img = rasterImg s.pixels s.width s.height) :=
  processLoopF_sprites (r.bytesLeft + 1) r pic sprites heq

/-- Witness for C10: the sprite of the concrete type-27 container `cont27`
is tile-deinterleaved — its saved image is `adjust_pixels` over its raster
image. -/
theorem c10_tiling_iff_type_witness :
    adjust_pixels (rasterImg spr27.pixels spr27.width spr27.height) spr27.pixels
        spr27.height spr27.width = some spr27.img :=
  (c10_tiling_iff_type (Reader.new cont27) 0
      ((processLoop (Reader.new cont27) 0).getD []) rfl spr27
      (List.mem_cons_self _ _)).2.1 (Or.inl rfl)

/-- C5 — confirmed.  Every input shorter than 35 bytes makes `process_tex`
fail immediately with the spec's SizeError — realized in the source as the
`DecompressionError` variant carrying `"Size of file is too small"` — so no
sprite is emitted and no file is written. -/
theorem c5_size_guard (d : Decoders) (raw : List ℕ) (h : raw.length < 35) :
    process_tex d raw = .err (.DecompressionError "Size of file is too small") := by
  unfold process_tex texBuffer
  rw [if_pos h]

/-- Witness for C5 at a concrete 3-byte input. -/
theorem c5_size_guard_witness :
    process_tex ⟨fun _ _ _ => none, fun _ => none, fun _ => .error "m"⟩ [0, 1, 2] =
      .err (.DecompressionError "Size of file is too small") :=
  c5_size_guard _ [0, 1, 2] (by decide)

/-- C6 — corrected (amended).  For versions outside {0, 1, 3} the parser's
buffer is the *entire* raw input (`raw_data.to_vec()`), header included —
not the tail after the `10 + hash_length` header that the claim describes;
for versions in {0, 1, 3} that tail is indeed what is passed to
decompression (when the header fits the input). -/
theorem c6_version_buffer :
    (∀ (d : Decoders) (raw : List ℕ), 35 ≤ raw.length →
      ¬ (texVersion raw = 0 ∨ texVersion raw = 1 ∨ texVersion raw = 3) →
      texBuffer d raw = .ok raw) ∧
    (∀ (d : Decoders) (raw : List ℕ), 35 ≤ raw.length →
      (texVersion raw = 0 ∨ texVersion raw = 1 ∨ texVersion raw = 3) →
      10 + texHashLength raw ≤ raw.length →
      texBuffer d raw = decompress d (raw.drop (10 + texHashLength raw))) := by
  constructor
  · intro d raw hlen hv
    unfold texBuffer
    rw [if_neg (by omega), if_neg hv]
  · intro d raw hlen hv hhash
    unfold texBuffer
    rw [if_neg (by omega), if_pos hv, if_neg (by omega)]

/-- Counterexample to C6 as stated: a 35-byte version-2 input with
hash-length 0.  The claim predicts the decompressed buffer equals the tail
after the 10-byte header; the code yields the whole input, which differs
from that tail. -/
theorem c6_counterexample :
    texBuffer ⟨fun _ _ _ => none, fun _ => none, fun _ => .error "m"⟩
        ([9, 9, 0, 0, 0, 2, 0, 0, 0, 0] ++ List.replicate 25 7) =
      .ok ([9, 9, 0, 0, 0, 2, 0, 0, 0, 0] ++ List.replicate 25 7) ∧
    ([9, 9, 0, 0, 0, 2, 0, 0, 0, 0] ++ List.replicate 25 7 : List ℕ) ≠
      ([9, 9, 0, 0, 0, 2, 0, 0, 0, 0] ++ List.replicate 25 7 : List ℕ).drop
        (10 + texHashLength ([9, 9, 0, 0, 0, 2, 0, 0, 0, 0] ++ List.replicate 25 7)) := by
  exact ⟨rfl, by decide⟩

/-- Witness for C6 at concrete inputs: the version-2 input keeps the whole
blob; a version-0 input with hash-length 0 passes its tail to `decompress`. -/
theorem c6_version_buffer_witness :
    texBuffer ⟨fun _ _ _ => none, fun _ => none, fun _ => .error "m"⟩
        ([9, 9, 0, 0, 0, 2, 0, 0, 0, 0] ++ List.replicate 25 7) =
      .ok ([9, 9, 0, 0, 0, 2, 0, 0, 0, 0] ++ List.replicate 25 7) ∧
    texBuffer ⟨fun _ _ _ => none, fun _ => none, fun _ => .error "m"⟩
        ([9, 9, 0, 0, 0, 0, 0, 0, 0, 0] ++ List.replicate 25 7) =
      decompress ⟨fun _ _ _ => none, fun _ => none, fun _ => .error "m"⟩
        (([9, 9, 0, 0, 0, 0, 0, 0, 0, 0] ++ List.replicate 25 7).drop
          (10 + texHashLength ([9, 9, 0, 0, 0, 0, 0, 0, 0, 0] ++ List.replicate 25 7))) :=
  ⟨c6_version_buffer.1 _ _ (by decide) (by decide),
   c6_version_buffer.2 _ _ (by decide) (by decide) (by decide)⟩

/-- C7 — corrected (amended).  For every compressed slice of at least 9
bytes whose first four bytes are neither the SCLZ magic nor the zstd frame
magic, the dispatcher splices exactly 4 zero bytes after the first 9 bytes
and hands the spliced sequence to the LZMA decoder, wrapping a decoder
failure message in `DecompressionError`; on slices shorter than 9 bytes the
slice expressions panic instead (see the counterexample). -/
theorem c7_lzma_splice (d : Decoders) (raw : List ℕ)
    (hlen : 9 ≤ raw.length)
    (hsclz : raw.take 4 ≠ [83, 67, 76, 90])
    (hzstd : raw.take 4 ≠ [40, 181, 47, 253]) :
    decompress d raw =
      match d.lzma (raw.take 9 ++ [0, 0, 0, 0] ++ raw.drop 9) with
      | .ok out => .ok out
      | .error e => .err (.DecompressionError ("Failed to decompress file: " ++ e)) := by
  unfold decompress
  rw [if_neg (by omega), if_neg hsclz, if_neg hzstd, if_neg (by omega)]
  dsimp only
  cases hx : d.lzma (raw.take 9 ++ [0, 0, 0, 0] ++ raw.drop 9) <;> rfl

/-- Counterexample to C7 as stated: a 5-byte non-magic slice.  The claim
predicts the spliced sequence is decoded (here the stub decoder succeeds
with `[]`, so the claim predicts `ok []`); the code panics on the
out-of-bounds slice `raw_data[0..9]`. -/
theorem c7_counterexample :
    decompress ⟨fun _ _ _ => some [], fun _ => some [], fun _ => .ok []⟩
        [9, 9, 9, 9, 9] = .panicked ∧
    (match (⟨fun _ _ _ => some [], fun _ => some [], fun _ => .ok []⟩ :
        Decoders).lzma (([9, 9, 9, 9, 9] : List ℕ).take 9 ++ [0, 0, 0, 0] ++
          ([9, 9, 9, 9, 9] : List ℕ).drop 9) with
      | .ok out => PResult.ok out
      | .error e => .err (.DecompressionError ("Failed to decompress file: " ++ e))) =
      .ok [] ∧
    (PResult.panicked : PResult (List ℕ)) ≠ .ok [] := by
  exact ⟨rfl, rfl, by decide⟩

/-- Witness for C7 at a concrete 10-byte non-magic slice whose stub decoder
fails with message `"m"`. -/
theorem c7_lzma_splice_witness :
    decompress ⟨fun _ _ _ => none, fun _ => none, fun _ => .error "m"⟩
        [1, 2, 3, 4, 5, 6, 7, 8, 9, 10] =
      .err (.DecompressionError "Failed to decompress file: m") := by
  rw [c7_lzma_splice _ [1, 2, 3, 4, 5, 6, 7, 8, 9, 10] (by decide) (by decide) (by decide)]
  rfl

/-- C4 — code bug.  `Reader::read` is documented to read an exact number of
bytes, and the claim (with §4.1) says `read(n)` returns exactly the next
`n` bytes when `n` or more remain, and exactly the remaining bytes when
fewer remain.  Because `read_to_end` *appends* to the pre-zeroed buffer
`vec![0; size]` whenever the clamped counter reaches zero, the code instead
returns `n` zero bytes followed by the remaining stream: on the 4-byte
buffer `[1,2,3,4]`, `read(4)` (exactly 4 bytes remain) returns the 8 bytes
`[0,0,0,0,1,2,3,4]`, and on `[1,2]`, `read(4)` returns `[0,0,0,0,1,2]`
rather than `[1,2]`. -/
theorem c4_read_bug :
    (Reader.new [1, 2, 3, 4]).read 4 =
      ([0, 0, 0, 0, 1, 2, 3, 4],
        { data := [1, 2, 3, 4], pos := 4, bytesLeft := 0 }) ∧
    ((Reader.new [1, 2]).read 4).1 = [0, 0, 0, 0, 1, 2] ∧
    ([0, 0, 0, 0, 1, 2, 3, 4] : List ℕ) ≠ [1, 2, 3, 4] := by
  exact ⟨rfl, rfl, by decide⟩

/-- C8 — confirmed.  Along every sequence of `Reader` operations from a
well-formed cursor state, the tracked bytes-remaining counter is
monotonically non-increasing, never exceeds the bytes actually remaining in
the underlying buffer, and the stream position never leaves the buffer (no
out-of-bounds access). -/
theorem c8_reader_invariant (ops : List ROp) (r : Reader) (hwf : r.Wf) :
    (applyOps r ops).bytesLeft ≤ r.bytesLeft ∧
      (applyOps r ops).bytesLeft ≤
        (applyOps r ops).data.length - (applyOps r ops).pos ∧
      (applyOps r ops).pos ≤ (applyOps r ops).data.length := by
  obtain ⟨hd, hb, hw⟩ := applyOps_spec ops r
  obtain ⟨hw1, hw2⟩ := hw hwf
  exact ⟨hb, hw2, hw1⟩

/-- Witness for C8: a concrete operation trace (including clamped
over-reads and the double-decrementing `read_string`) over a 3-byte
buffer. -/
theorem c8_reader_invariant_witness :
    (applyOps (Reader.new [1, 2, 3])
        [.readUint16, .read 5, .readString 2, .readInt32]).bytesLeft ≤
      (Reader.new [1, 2, 3]).bytesLeft ∧
      (applyOps (Reader.new [1, 2, 3])
          [.readUint16, .read 5, .readString 2, .readInt32]).bytesLeft ≤
        (applyOps (Reader.new [1, 2, 3])
            [.readUint16, .read 5, .readString 2, .readInt32]).data.length -
          (applyOps (Reader.new [1, 2, 3])
              [.readUint16, .read 5, .readString 2, .readInt32]).pos ∧
      (applyOps (Reader.new [1, 2, 3])
          [.readUint16, .read 5, .readString 2, .readInt32]).pos ≤
        (applyOps (Reader.new [1, 2, 3])
            [.readUint16, .read 5, .readString 2, .readInt32]).data.length :=
  c8_reader_invariant [.readUint16, .read 5, .readString 2, .readInt32]
    (Reader.new [1, 2, 3]) ⟨by decide, by decide⟩

/-- C9 — corrected (amended).  For inputs of at least 35 bytes the
extraction entry point returns a `Result` without panicking *provided* the
attacker-controlled header fits: either the version is outside {0, 1, 3}
(no slicing happens), or `10 + hash_length` is within the input and the
compressed remainder holds at least 9 bytes (covering the magic read, the
SCLZ parameter reads, and the LZMA splice).  Outside these bounds the slice
expressions panic — see the counterexample. -/
theorem c9_no_panic (d : Decoders) (raw : List ℕ) (hlen : 35 ≤ raw.length)
    (hsafe : ¬ (texVersion raw = 0 ∨ texVersion raw = 1 ∨ texVersion raw = 3) ∨
      (10 + texHashLength raw ≤ raw.length ∧
        9 ≤ raw.length - (10 + texHashLength raw))) :
    process_tex d raw ≠ .panicked := by
  have hloop : ∀ out : List ℕ, processLoop (Reader.new out) 0 ≠ none := by
    intro out
    unfold processLoop
    exact processLoopF_ne_none _ _ _ (Nat.lt_succ_self _)
  have htb : texBuffer d raw ≠ .panicked := by
    unfold texBuffer
    rw [if_neg (by omega)]
    by_cases hv : texVersion raw = 0 ∨ texVersion raw = 1 ∨ texVersion raw = 3
    · rcases hsafe with hsafe | ⟨hh1, hh2⟩
      · exact absurd hv hsafe
      · rw [if_pos hv, if_neg (by omega)]
        have htail : 9 ≤ (raw.drop (10 + texHashLength raw)).length := by
          rw [List.length_drop]; omega
        unfold decompress
        rw [if_neg (by omega)]
        by_cases hsclz :
            (raw.drop (10 + texHashLength raw)).take 4 = [83, 67, 76, 90]
        · rw [if_pos hsclz, if_neg (by omega)]
          dsimp only
          cases d.lzham ((raw.drop (10 + texHashLength raw)).drop 9)
              ((raw.drop (10 + texHashLength raw)).getD 4 0)
              ((raw.drop (10 + texHashLength raw)).getD 5 0 +
                256 * (raw.drop (10 + texHashLength raw)).getD 6 0 +
                65536 * (raw.drop (10 + texHashLength raw)).getD 7 0 +
                16777216 * (raw.drop (10 + texHashLength raw)).getD 8 0) <;> simp
        · rw [if_neg hsclz]
          by_cases hz : (raw.drop (10 + texHashLength raw)).take 4 = [40, 181, 47, 253]
          · rw [if_pos hz]
            cases d.zstd (raw.drop (10 + texHashLength raw)) <;> simp
          · rw [if_neg hz, if_neg (by omega)]
            dsimp only
            cases d.lzma ((raw.drop (10 + texHashLength raw)).take 9 ++ [0, 0, 0, 0] ++
              (raw.drop (10 + texHashLength raw)).drop 9) <;> simp
    · rw [if_neg hv]
      simp
  unfold process_tex
  cases htex : texBuffer d raw with
  | ok out =>
    dsimp only
    cases hl : processLoop (Reader.new out) 0 with
    | none => exact absurd hl (hloop out)
    | some sprites => simp
  | err e => simp
  | panicked => exact absurd htex htb

/-- Counterexample to C9 as stated: a 35-byte version-0 input whose
(attacker-controlled) hash-length field is 256, so `10 + hash_length`
exceeds the input length and `&raw_data[10 + hash_length..]` panics. -/
theorem c9_counterexample :
    35 ≤ ([9, 9, 0, 0, 0, 0, 0, 0, 1, 0] ++ List.replicate 25 7 : List ℕ).length ∧
    process_tex ⟨fun _ _ _ => none, fun _ => none, fun _ => .error "m"⟩
        ([9, 9, 0, 0, 0, 0, 0, 0, 1, 0] ++ List.replicate 25 7) = .panicked := by
  exact ⟨by decide, rfl⟩

/-- Witness for C9 at a concrete version-2 input (no decompression path). -/
theorem c9_no_panic_witness :
    process_tex ⟨fun _ _ _ => none, fun _ => none, fun _ => .error "m"⟩
        ([9, 9, 0, 0, 0, 2, 0, 0, 0, 0] ++ List.replicate 25 7) ≠ .panicked :=
  c9_no_panic _ ([9, 9, 0, 0, 0, 2, 0, 0, 0, 0] ++ List.replicate 25 7)
    (by decide) (Or.inl (by decide))

/-- C2 — corrected (amended).  In a container of a valid image chunk, an
image chunk of recognized type whose sub-type is unknown and which declares
at least one pixel but carries *no* payload bytes after its 10-byte header,
and a second valid image chunk, the `UnknownPixel` error is recovered
locally: the offending chunk is abandoned and exactly the two valid sprites
are emitted, in container order, with ordinals 0 and 1 (the failed chunk
consumes no ordinal).  When the failed chunk does carry payload bytes the
parser resumes *inside* that payload and sibling sprites can be lost — see
the counterexample. -/
theorem c2_unknown_pixel_recovery
    (t1 sz1 s1 w1 h1 : ℕ) (p1 : List ℕ)
    (tf szf sf wf hf : ℕ)
    (t2 sz2 s2 w2 h2 : ℕ) (p2 : List ℕ)
    (ht1 : t1 = 1 ∨ t1 = 24 ∨ t1 = 27 ∨ t1 = 28)
    (hs1 : recognizedPixel s1)
    (hw1 : w1 < 65536) (hh1 : h1 < 65536)
    (hp1 : p1.length = w1 * h1 * bpp s1)
    (htf : tf = 1 ∨ tf = 24 ∨ tf = 27 ∨ tf = 28)
    (hsf : ¬ recognizedPixel sf)
    (hwf : wf < 65536) (hhf : hf < 65536)
    (hwhf : 0 < wf * hf)
    (ht2 : t2 = 1 ∨ t2 = 24 ∨ t2 = 27 ∨ t2 = 28)
    (hs2 : recognizedPixel s2)
    (hw2 : w2 < 65536) (hh2 : h2 < 65536)
    (hp2 : p2.length = w2 * h2 * bpp s2) :
    ∃ (px1 px2 : List Pixel) (img1 img2 : Grid),
      processLoop (Reader.new (chunkBytes t1 sz1 s1 w1 h1 p1 ++
          chunkBytes tf szf sf wf hf [] ++ chunkBytes t2 sz2 s2 w2 h2 p2)) 0 =
        some [⟨t1, s1, w1, h1, px1, 0, img1⟩, ⟨t2, s2, w2, h2, px2, 1, img2⟩] := by
  set L1 := chunkBytes t1 sz1 s1 w1 h1 p1 with hL1
  set Lf := chunkBytes tf szf sf wf hf [] with hLf
  set L2 := chunkBytes t2 sz2 s2 w2 h2 p2 with hL2
  have hL1len : L1.length = 10 + p1.length := chunkBytes_length t1 sz1 s1 w1 h1 p1
  have hLflen : Lf.length = 10 := chunkBytes_length tf szf sf wf hf []
  have hL2len : L2.length = 10 + p2.length := chunkBytes_length t2 sz2 s2 w2 h2 p2
  set r0 := Reader.new (L1 ++ Lf ++ L2) with hr0
  have hal0 : r0.Aligned := Reader.aligned_new _
  have hbl0 : r0.bytesLeft = L1.length + Lf.length + L2.length := by
    show (L1 ++ Lf ++ L2).length = _
    simp
    omega
  have hrem0 : r0.remStream = L1 ++ (Lf ++ L2) := by
    rw [hr0, remStream_new, List.append_assoc]
  obtain ⟨px1, img1, hplen1, heq1⟩ := processLoop_chunk r0 0 t1 sz1 s1 w1 h1 p1
    (Lf ++ L2) hal0 hrem0 ht1 hs1 hw1 hh1 hp1
  set r1 := r0.adv (10 + p1.length) with hr1
  have hal1 : r1.Aligned := Reader.adv_aligned hal0 (by omega)
  have hbl1 : r1.bytesLeft = Lf.length + L2.length := by
    rw [hr1, adv_bytesLeft]; omega
  have hrem1 : r1.remStream = Lf ++ L2 := by
    rw [hr1, Reader.remStream_adv, hrem0, show 10 + p1.length = L1.length by omega,
      List.drop_left]
  have heq2 := processLoop_failChunk r1 1 tf szf sf wf hf L2 hal1 hrem1 htf hsf
    hwf hhf hwhf
  set r2 := r1.adv 10 with hr2
  have hal2 : r2.Aligned := Reader.adv_aligned hal1 (by omega)
  have hbl2 : r2.bytesLeft = L2.length := by
    rw [hr2, adv_bytesLeft]; omega
  have hrem2 : r2.remStream = L2 ++ [] := by
    rw [hr2, Reader.remStream_adv, hrem1, show (10 : ℕ) = Lf.length by omega,
      List.drop_left, List.append_nil]
  obtain ⟨px2, img2, hplen2, heq3⟩ := processLoop_chunk r2 1 t2 sz2 s2 w2 h2 p2
    [] hal2 hrem2 ht2 hs2 hw2 hh2 hp2
  have hend : processLoop (r2.adv (10 + p2.length)) 2 = some [] := by
    apply processLoop_nil
    rw [adv_bytesLeft]; omega
  refine ⟨px1, px2, img1, img2, ?_⟩
  rw [heq1, heq2, heq3, hend]
  rfl

/-- Counterexample to C2 as stated: the middle chunk (type 1, unknown
sub-type 99, declared 1×1) carries 5 payload bytes.  After the
`UnknownPixel` abort the cursor sits on that payload; its first byte (0)
parses as a skipped non-image chunk whose bogus size `0xFFFFFFFF` swallows the rest
of the container, so the second valid sprite is lost: only ordinal 0 is
emitted instead of the claimed ordinals 0 and 1. -/
theorem c2_counterexample :
    (processLoop (Reader.new (chunkBytes 1 9 10 1 1 [170] ++
        chunkBytes 1 9 99 1 1 [0, 255, 255, 255, 255] ++
        chunkBytes 24 9 10 1 1 [187])) 0).map
      (List.map fun s => (s.fileType, s.ordinal)) = some [(1, 0)] ∧
    (some [(1, 0)] : Option (List (ℕ × ℕ))) ≠ some [(1, 0), (24, 1)] := by
  exact ⟨rfl, by decide⟩

/-- Witness for C2 at concrete chunks: type 1 (1×1, code 10), a failed
type-24 chunk of unknown sub-type 99 declaring 1×1 with no payload, and a
type-24 chunk (1×1, code 10). -/
theorem c2_unknown_pixel_recovery_witness :
    ∃ (px1 px2 : List Pixel) (img1 img2 : Grid),
      processLoop (Reader.new (chunkBytes 1 9 10 1 1 [170] ++
          chunkBytes 24 7 99 1 1 [] ++ chunkBytes 24 9 10 1 1 [187])) 0 =
        some [⟨1, 10, 1, 1, px1, 0, img1⟩, ⟨24, 10, 1, 1, px2, 1, img2⟩] :=
  c2_unknown_pixel_recovery 1 9 10 1 1 [170] 24 7 99 1 1 24 9 10 1 1 [187]
    (by decide) (by decide) (by decide) (by decide) (by decide) (by decide)
    (by decide) (by decide) (by decide) (by decide) (by decide) (by decide)
    (by decide) (by decide) (by decide)

/-- Counterexample to C1 as stated: code 0 on a cursor holding exactly its
4-byte width `[1,2,3,4]`.  The §4.4 table predicts the RGBA passthrough
(1,2,3,4); the reader's end-of-buffer `read_to_end` path returns a
zero-prefixed buffer, so the sample decodes as (0,0,0,0). -/
theorem c1_counterexample :
    (convert_pixel (Reader.new [1, 2, 3, 4]) 0).2 = .ok ⟨0, 0, 0, 0⟩ ∧
    specPixelTable 0 [1, 2, 3, 4] = ⟨1, 2, 3, 4⟩ ∧
    (⟨0, 0, 0, 0⟩ : Pixel) ≠ ⟨1, 2, 3, 4⟩ :=
  ⟨rfl, rfl, by decide⟩

/-- Witness for C1: code 4 (RGB565) consuming `0xFFFF` — bytes
`[255, 255]` — yields the table sample, which evaluates to
(248, 252, 248, 255). -/
theorem c1_convert_pixel_table_witness :
    convert_pixel (Reader.new [255, 255, 9]) 4 =
      ((Reader.new [255, 255, 9]).adv 2,
        Except.ok (specPixelTable 4 ((Reader.new [255, 255, 9]).remStream.take 2))) ∧
    specPixelTable 4 ((Reader.new [255, 255, 9]).remStream.take 2) =
      ⟨248, 252, 248, 255⟩ := by
  refine ⟨?_, rfl⟩
  exact c1_convert_pixel_table (Reader.new [255, 255, 9]) 4 (by decide)
    ⟨by decide, rfl⟩ (by decide) (by decide) (by decide)

end ScExtract
